import Mathlib

/-!
Verification development for the enterprise-cloud-migration repository.

The two source files are embedded shallowly:
* `src/migration_pipeline.py` — watermark store (`get_watermark` /
  `update_watermark`), extraction, `transform_for_synapse`, and the
  `migrate_table` orchestrator;
* `src/data_validation.py` — `validate_checksum`, `validate_schema`,
  `validate_nulls` of `MigrationValidator`.

Modelling conventions:
* Timestamps are modelled at second resolution (the pipeline writes
  `datetime.isoformat()` records and reads them back with
  `datetime.fromisoformat`; sub-second digits round-trip identically and
  are elided).
* Python strings are Lean `String`s, processed through their character
  lists; the watermark file is its list of newline-delimited lines.
* CPython's deterministic `hash` for `int` and for tuples is embedded
  exactly (`pyIntHash`, `pyTupleHash`); its per-process salted `hash` for
  `str` (PYTHONHASHSEED) is a parameter `HashPrims`, one instance per
  process.
* Functions that can raise return `Except PyErr`; in-place mutation of a
  dataframe argument is made explicit by returning the final state of the
  argument.
-/

set_option maxRecDepth 10000

namespace Migration

/-- Whitespace test matching what `str.strip()` removes (the characters that
occur in this development; Python also strips `\x0b`/`\x0c`). -/
def isWsCh (c : Char) : Bool :=
  c == ' ' || c == '\t' || c == '\n' || c == '\r'

/-- Python `str.split(sep)` for a one-character separator, on character
lists: `"".split` gives `[""]`, separators at the ends give empty pieces. -/
def splitOnChar (sep : Char) : List Char → List (List Char)
  | [] => [[]]
  | c :: cs =>
    let r := splitOnChar sep cs
    if c = sep then [] :: r
    else
      match r with
      | [] => [[c]]
      | h :: t => (c :: h) :: t

/-- Python `str.strip()` on a character list: drop whitespace from both ends. -/
def stripWs (l : List Char) : List Char :=
  ((l.dropWhile isWsCh).reverse.dropWhile isWsCh).reverse

/-- Decimal digit characters. -/
def digChars : List Char := ['0', '1', '2', '3', '4', '5', '6', '7', '8', '9']

/-- Digit character of `n` (callers only pass `n < 10`). -/
def digCh (n : Nat) : Char := digChars.getD n '9'

/-- Numeric value of a digit character. -/
def digVal (c : Char) : Nat := c.toNat - 48

/-- Test for an ASCII decimal digit. -/
def isDig (c : Char) : Bool := decide (48 ≤ c.toNat) && decide (c.toNat ≤ 57)

/-- Two-digit zero-padded numeral, as written by `datetime.isoformat`. -/
def pad2 (n : Nat) : List Char := [digCh (n / 10), digCh (n % 10)]

/-- Four-digit zero-padded year numeral. -/
def pad4 (n : Nat) : List Char :=
  [digCh (n / 1000), digCh (n / 100 % 10), digCh (n / 10 % 10), digCh (n % 10)]

/-- Read a two-digit numeral. -/
def readNat2 : List Char → Option Nat
  | [a, b] => if isDig a && isDig b then some (digVal a * 10 + digVal b) else none
  | _ => none

/-- Read a four-digit numeral. -/
def readNat4 : List Char → Option Nat
  | [a, b, c, d] =>
    if isDig a && isDig b && isDig c && isDig d then
      some (((digVal a * 10 + digVal b) * 10 + digVal c) * 10 + digVal d)
    else none
  | _ => none

/-- Timestamp at second resolution; stands for Python `datetime` (and pandas
timestamps) in the watermark pattern. -/
structure Dtime where
  year : Nat
  month : Nat
  day : Nat
  hour : Nat
  minute : Nat
  second : Nat
deriving DecidableEq

/-- Gregorian leap-year rule, as validated by `datetime`. -/
def isLeap (y : Nat) : Bool := (y % 4 == 0 && y % 100 != 0) || y % 400 == 0

/-- Number of days of month `m` of year `y`. -/
def daysInMonth (y m : Nat) : Nat :=
  if m = 2 then (if isLeap y then 29 else 28)
  else if m = 4 ∨ m = 6 ∨ m = 9 ∨ m = 11 then 30 else 31

/-- Field ranges `datetime` enforces on construction and parsing. -/
def Dtime.valid (d : Dtime) : Prop :=
  1 ≤ d.year ∧ d.year ≤ 9999 ∧ 1 ≤ d.month ∧ d.month ≤ 12 ∧
  1 ≤ d.day ∧ d.day ≤ daysInMonth d.year d.month ∧
  d.hour ≤ 23 ∧ d.minute ≤ 59 ∧ d.second ≤ 59

instance : DecidablePred Dtime.valid := fun d => by
  unfold Dtime.valid
  infer_instance

/-- Injection of a timestamp into a single natural number; chronological
comparison coincides with comparing ranks (month `≤ 12 < 13`, day `≤ 31 < 32`). -/
def Dtime.rank (d : Dtime) : Nat :=
  ((((d.year * 13 + d.month) * 32 + d.day) * 24 + d.hour) * 60 + d.minute) * 60 + d.second

/-- Binary maximum of two timestamps, as computed by pandas `Series.max` over
a datetime column. -/
def dtMax (a b : Dtime) : Dtime := if a.rank ≤ b.rank then b else a

/-- Character list of `date.isoformat()`: `YYYY-MM-DD`. -/
def dateData (d : Dtime) : List Char :=
  pad4 d.year ++ '-' :: (pad2 d.month ++ '-' :: pad2 d.day)

/-- Character list of the time part `HH:MM:SS` of `datetime.isoformat()`. -/
def timeData (d : Dtime) : List Char :=
  pad2 d.hour ++ ':' :: (pad2 d.minute ++ ':' :: pad2 d.second)

/-- Character list of `datetime.isoformat()` (microsecond part elided; it is
zero for the values this development round-trips at second resolution). -/
def isoData (d : Dtime) : List Char := dateData d ++ 'T' :: timeData d

/-- String form of `datetime.isoformat()`. -/
def isoDt (d : Dtime) : String := ⟨isoData d⟩

/-- Parse of the date part of `datetime.fromisoformat`: three dash-separated,
zero-padded numeric fields, range-checked like Python does. -/
def parseDate (l : List Char) : Option (Nat × Nat × Nat) :=
  match splitOnChar '-' l with
  | [ys, ms, ds] =>
    match readNat4 ys, readNat2 ms, readNat2 ds with
    | some y, some m, some d =>
      if 1 ≤ y ∧ 1 ≤ m ∧ m ≤ 12 ∧ 1 ≤ d ∧ d ≤ daysInMonth y m then some (y, m, d)
      else none
    | _, _, _ => none
  | _ => none

/-- Parse of the `HH:MM:SS` time part of `datetime.fromisoformat`. -/
def parseTime (l : List Char) : Option (Nat × Nat × Nat) :=
  match splitOnChar ':' l with
  | [hs, ms, ss] =>
    match readNat2 hs, readNat2 ms, readNat2 ss with
    | some h, some m, some s => if h ≤ 23 ∧ m ≤ 59 ∧ s ≤ 59 then some (h, m, s) else none
    | _, _, _ => none
  | _ => none

/-- Embedding of `datetime.fromisoformat` for the record formats this program
produces: a date `YYYY-MM-DD` (time defaults to midnight, as for the sentinel
`'1900-01-01'`) or a full `YYYY-MM-DDTHH:MM:SS`.  `none` is Python's
`ValueError`. -/
def fromiso (s : String) : Option Dtime :=
  match splitOnChar 'T' s.data with
  | [ds] => (parseDate ds).map (fun p => ⟨p.1, p.2.1, p.2.2, 0, 0, 0⟩)
  | [ds, ts] =>
    match parseDate ds, parseTime ts with
    | some p, some q => some ⟨p.1, p.2.1, p.2.2, q.1, q.2.1, q.2.2⟩
    | _, _ => none
  | _ => none

/-- Exceptions that the embedded code can raise. -/
inductive PyErr where
  | valueError
  | keyError
  | typeError
  | other (msg : String)
deriving DecidableEq

/-! ### Scalar values and CPython hashing -/

/-- Scalar cell values of a dataframe row. -/
inductive Value where
  | intV (n : Int)
  | strV (s : String)
  | dtV (d : Dtime)
  | nullV
deriving DecidableEq

/-- Python `str()` of a scalar, as used by `.astype(str)`
(`str(datetime)` separates date and time with a space). -/
def pyStr : Value → String
  | .intV n => toString n
  | .strV s => s
  | .dtV d => ⟨dateData d ++ ' ' :: timeData d⟩
  | .nullV => "None"

/-- CPython `hash(int)`: reduction modulo `2^61 - 1` preserving sign, with
`-1` mapped to `-2`.  Deterministic across processes. -/
def pyIntHash (n : Int) : Int :=
  let M : Int := 2 ^ 61 - 1
  let r : Int := if 0 ≤ n then n % M else -((-n) % M)
  if r = -1 then -2 else r

/-- Modulus of 64-bit unsigned hash arithmetic. -/
def U64 : Nat := 2 ^ 64

/-- Reinterpret a signed `Py_hash_t` as `Py_uhash_t`. -/
def toU64 (n : Int) : Nat := (n % (U64 : Int)).toNat

/-- Reinterpret a `Py_uhash_t` as signed. -/
def toSigned64 (a : Nat) : Int := if a < 2 ^ 63 then (a : Int) else (a : Int) - (U64 : Int)

/-- Left-rotation by 31 of a 64-bit word. -/
def rotl31 (a : Nat) : Nat := (a % 2 ^ 33) * 2 ^ 31 + a / 2 ^ 33

/-- CPython `_PyHASH_XXPRIME_1`. -/
def XXP1 : Nat := 11400714785074694791

/-- CPython `_PyHASH_XXPRIME_2`. -/
def XXP2 : Nat := 14029467366897019727

/-- CPython `_PyHASH_XXPRIME_5`. -/
def XXP5 : Nat := 2870177450012600261

/-- One accumulation step of CPython's xxHash-based tuple hash. -/
def tupleHashStep (acc lane : Nat) : Nat :=
  (rotl31 ((acc + lane * XXP2) % U64) * XXP1) % U64

/-- CPython `hash(tuple)` (3.8+), a deterministic function of the element
hashes: xxHash-style accumulation, length mixed in at the end, the reserved
value `-1` replaced by `1546275796`. -/
def pyTupleHash (lanes : List Int) : Int :=
  let acc := lanes.foldl (fun a l => tupleHashStep a (toU64 l)) XXP5
  let acc2 := (acc + (Nat.xor lanes.length (Nat.xor XXP5 3527539))) % U64
  if acc2 = U64 - 1 then 1546275796 else toSigned64 acc2

/-- Per-process hash primitives.  CPython salts `hash(str)` with
PYTHONHASHSEED at interpreter start-up, and `hash(datetime)` / `hash(None)`
also vary across processes (they go through salted byte hashing resp.
address-derived identity); each process supplies one `HashPrims`. -/
structure HashPrims where
  strh : String → Int
  dth : Dtime → Int
  nullh : Int

/-- Hash of one scalar in the process with primitives `h`. -/
def pyHashValue (h : HashPrims) : Value → Int
  | .intV n => pyIntHash n
  | .strV s => h.strh s
  | .dtV d => h.dth d
  | .nullV => h.nullh

/-- Row fingerprint `hash(tuple(row.values))` of `validate_checksum`
(`src/data_validation.py` lines 38-40 and 45-47) in process `h`. -/
def pyHashRow (h : HashPrims) (row : List Value) : Int :=
  pyTupleHash (row.map (pyHashValue h))

/-! ### Dataframes -/

/-- Dataframe: ordered column names and rows of scalar values (row `r` has
`r.length = cols.length` when well-formed). -/
structure DF where
  cols : List String
  rows : List (List Value)
deriving DecidableEq

/-- Index of a column label, `none` when absent (pandas `KeyError`). -/
def colIdx (cols : List String) (c : String) : Option Nat :=
  cols.findIdx? (fun x => x == c)

/-- Column extraction `df[c]`. -/
def getCol (df : DF) (c : String) : Option (List Value) :=
  (colIdx df.cols c).map (fun i => df.rows.map (fun r => r.getD i .nullV))

/-- Column assignment `df[c] = vs`: replaces the column in place when the
label exists, else appends a new column on the right. -/
def setColDF (df : DF) (c : String) (vs : List Value) : DF :=
  match colIdx df.cols c with
  | some i => ⟨df.cols, List.zipWith (fun r v => r.set i v) df.rows vs⟩
  | none => ⟨df.cols ++ [c], List.zipWith (fun r v => r ++ [v]) df.rows vs⟩

/-- Well-formedness: every row has one value per column. -/
def DFwf (df : DF) : Prop := ∀ r ∈ df.rows, r.length = df.cols.length

instance : DecidablePred DFwf := fun df => by
  unfold DFwf
  infer_instance

/-! ### Validators (`src/data_validation.py`) -/

/-- The in-place assignment `df['checksum'] = df.apply(lambda row:
hash(tuple(row.values)), axis=1)` of `validate_checksum`: the fingerprints
are computed from the rows as they are at that moment (including an existing
`checksum` column, since `apply` runs before the assignment lands). -/
def addChecksum (h : HashPrims) (df : DF) : DF :=
  setColDF df "checksum" (df.rows.map (fun r => Value.intV (pyHashRow h r)))

/-- RowKey column `df[key].astype(str) + '_' + df['checksum'].astype(str)`
(lines 41 and 48); `none` is the `KeyError` of a missing key column. -/
def rowKeyList (df : DF) (key : String) : Option (List String) :=
  match getCol df key, getCol df "checksum" with
  | some ks, some cs => some (List.zipWith (fun a b => pyStr a ++ "_" ++ pyStr b) ks cs)
  | _, _ => none

/-- `MigrationValidator.validate_checksum` (lines 31-63).  Returns the boolean
result together with the final states of the two dataframe arguments (the
function mutates them by assigning a `checksum` column; the `try/except`
catches the `KeyError` of a missing key column and returns `False`, with the
target frame still unmutated when the source lookup is what failed). -/
def validate_checksum (h : HashPrims) (source_df target_df : DF) (key_column : String) :
    Bool × DF × DF :=
  let s1 := addChecksum h source_df
  match rowKeyList s1 key_column with
  | none => (false, s1, target_df)
  | some sk =>
    let t1 := addChecksum h target_df
    match rowKeyList t1 key_column with
    | none => (false, s1, t1)
    | some tk => (decide ((symmDiff sk.toFinset tk.toFinset).card = 0), s1, t1)

/-- The symmetric difference `source_set.symmetric_difference(target_set)`
computed inside `validate_checksum` (line 52), for stating its size. -/
def checksumDiff (h : HashPrims) (s t : DF) (key : String) : Finset String :=
  match rowKeyList (addChecksum h s) key, rowKeyList (addChecksum h t) key with
  | some sk, some tk => symmDiff sk.toFinset tk.toFinset
  | _, _ => ∅

/-- RowKey of one row when the business-key column sits at index `i`:
`str(key_value) + '_' + str(fingerprint)`. -/
def rowKeyOf (h : HashPrims) (i : Nat) (r : List Value) : String :=
  pyStr (r.getD i Value.nullV) ++ "_" ++ pyStr (Value.intV (pyHashRow h r))

/-- Schema: mapping from column name to declared type, as a Python dict. -/
abbrev Schema := List (String × String)

/-- `MigrationValidator.validate_schema` (lines 65-77): compares the sets of
column names.  Returned with the (untouched) final states of its arguments. -/
def validate_schema (source_schema target_schema : Schema) : Bool × Schema × Schema :=
  let source_cols := (source_schema.map Prod.fst).toFinset
  let target_cols := (target_schema.map Prod.fst).toFinset
  (decide (source_cols = target_cols), source_schema, target_schema)

/-- Count of nulls of one column, `df[c].isnull().sum()`. -/
def countNulls (vs : List Value) : Nat :=
  (vs.filter (fun v => v == Value.nullV)).length

/-- `MigrationValidator.validate_nulls` (lines 79-89).  `df[critical_columns]`
raises `KeyError` when a listed column is absent — the function has no
`try/except`, so that error propagates (`Except.error`); otherwise any column
with a positive null count makes the result `False`.  Returned with the
(untouched) final state of the dataframe argument. -/
def validate_nulls (df : DF) (critical_columns : List String) :
    Except PyErr Bool × DF :=
  if critical_columns.all (fun c => (colIdx df.cols c).isSome) then
    let issues := critical_columns.filter
      (fun c => decide (0 < countNulls ((getCol df c).getD [])))
    (.ok issues.isEmpty, df)
  else
    (.error .keyError, df)

/-! ### Watermark store (`src/migration_pipeline.py` lines 48-64) -/

/-- Sentinel `datetime(1900, 1, 1)` denoting "never migrated". -/
def sentinelDt : Dtime := ⟨1900, 1, 1, 0, 0, 0⟩

/-- `line.strip()`. -/
def pyStrip (s : String) : String := ⟨stripWs s.data⟩

/-- `line.split('=')`. -/
def pySplitEq (s : String) : List String := (splitOnChar '=' s.data).map (fun l => ⟨l⟩)

/-- One step of `dict(line.strip().split('=') for line in f)`: a line that
does not split into exactly two pieces makes `dict` raise `ValueError`. -/
def parseRecord (line : String) : Except PyErr (String × String) :=
  match pySplitEq (pyStrip line) with
  | [k, v] => .ok (k, v)
  | _ => .error .valueError

/-- The full dict construction over the watermark file's lines, in order;
the first malformed line raises. -/
def buildDict : List String → Except PyErr (List (String × String))
  | [] => .ok []
  | l :: ls =>
    match parseRecord l, buildDict ls with
    | .ok p, .ok d => .ok (p :: d)
    | .error e, _ => .error e
    | .ok _, .error e => .error e

/-- Python dict lookup over insertion-ordered pairs: the last binding of a
key wins, `none` when absent. -/
def dlookup (d : List (String × String)) (k : String) : Option String :=
  d.foldl (fun acc p => if p.1 = k then some p.2 else acc) none

/-- `CloudMigrationPipeline.get_watermark` (lines 48-55).  The file is `none`
when it does not exist (`FileNotFoundError`, caught: sentinel); a `ValueError`
from `dict(...)` or `datetime.fromisoformat` is not caught and propagates. -/
def get_watermark (file : Option (List String)) (table_name : String) :
    Except PyErr Dtime :=
  match file with
  | none => .ok sentinelDt
  | some lines =>
    match buildDict lines with
    | .error e => .error e
    | .ok d =>
      match fromiso ((dlookup d table_name).getD "1900-01-01") with
      | some w => .ok w
      | none => .error .valueError

/-- The record text `f"{table_name}={new_watermark.isoformat()}"` appended by
`update_watermark`. -/
def logLine (table_name : String) (w : Dtime) : String :=
  table_name ++ "=" ++ isoDt w

/-- `CloudMigrationPipeline.update_watermark` (lines 57-64): append-only write
of one record (mode `'a+'` creates the file when absent; its own exceptions
are caught and only logged). -/
def update_watermark (file : Option (List String)) (table_name : String) (w : Dtime) :
    Option (List String) :=
  some (file.getD [] ++ [logLine table_name w])

/-- Well-formed table name: non-empty, no `'='` and no whitespace characters
(so the appended record parses back to the same name). -/
def wfName (s : String) : Prop :=
  s.data ≠ [] ∧ ∀ c ∈ s.data, c ≠ '=' ∧ isWsCh c = false

instance : DecidablePred wfName := fun s => by
  unfold wfName
  infer_instance

/-- Timestamp of the last `set` for `table` in a history of successful
`update_watermark` calls, if any. -/
def lastOpt (hist : List (String × Dtime)) (table : String) : Option Dtime :=
  hist.foldl (fun acc p => if p.1 = table then some p.2 else acc) none

/-- Timestamp of the last `set` for `table`, or the sentinel. -/
def lastWatermark (hist : List (String × Dtime)) (table : String) : Dtime :=
  (lastOpt hist table).getD sentinelDt

/-- Watermark file produced by a history of successful `update_watermark`
calls starting from no file. -/
def fileOfSets (hist : List (String × Dtime)) : Option (List String) :=
  match hist with
  | [] => none
  | _ => some (hist.map (fun p => logLine p.1 p.2))

/-! ### Transformer, extractor and orchestrator (`src/migration_pipeline.py`) -/

/-- Characters the regex class `\w` keeps. -/
def isWordCh (c : Char) : Bool := c.isAlphanum || c == '_'

/-- Column-name normalization of `transform_for_synapse` (lines 97-101):
lower-case, spaces to underscores, then strip every non-word character. -/
def normName (s : String) : String :=
  ⟨((s.data.map Char.toLower).map (fun c => if c = ' ' then '_' else c)).filter isWordCh⟩

/-- The in-place `df.columns = ...` rename. -/
def renameDF (df : DF) : DF := ⟨df.cols.map normName, df.rows⟩

/-- Value of column `i` in every row. -/
def colAt (df : DF) (i : Nat) : List Value := df.rows.map (fun r => r.getD i .nullV)

/-- Best-effort reinterpretation of one textual cell as a timestamp. -/
def coerceVal : Value → Value
  | .strV s =>
    match fromiso s with
    | some d => .dtV d
    | none => .strV s
  | v => v

/-- Whether a cell is a string that parses as a timestamp. -/
def isParseableStr : Value → Bool
  | .strV s => (fromiso s).isSome
  | _ => false

/-- Whether `pd.to_datetime(df[col], errors='ignore')` converts the column:
all-or-nothing — only a non-empty, all-textual, all-parseable column is
converted, any failure leaves the column's original values unchanged. -/
def colQualifies (vs : List Value) : Bool := !vs.isEmpty && vs.all isParseableStr

/-- The per-column datetime coercion loop of `transform_for_synapse`
(lines 103-110). -/
def coerceCols (df : DF) : DF :=
  let quals := (List.range df.cols.length).map (fun i => colQualifies (colAt df i))
  ⟨df.cols, df.rows.map (fun r => List.zipWith (fun q v => if q then coerceVal v else v) quals r)⟩

/-- `datetime.utcnow().strftime('%Y%m%d%H%M%S')`, the batch identifier. -/
def batchId (now : Dtime) : String :=
  ⟨pad4 now.year ++ pad2 now.month ++ pad2 now.day ++
    pad2 now.hour ++ pad2 now.minute ++ pad2 now.second⟩

/-- `CloudMigrationPipeline.transform_for_synapse` (lines 89-118): rename
columns in place, coerce textual columns, append the three lineage columns.
The argument dataframe object itself is mutated and returned, so the caller's
`df` and `df_transformed` are the same frame afterwards. -/
def transform_for_synapse (now : Dtime) (df : DF) : DF :=
  let d1 := renameDF df
  let d2 := coerceCols d1
  let n := d2.rows.length
  let d3 := setColDF d2 "_ingestion_timestamp" (List.replicate n (Value.dtV now))
  let d4 := setColDF d3 "_source_system" (List.replicate n (Value.strV "legacy_sql_server"))
  setColDF d4 "_migration_batch_id" (List.replicate n (Value.strV (batchId now)))

/-- Cell as timestamp, for `df['lastmodified'].max()`. -/
def asDt : Value → Option Dtime
  | .dtV d => some d
  | _ => none

/-- View of a column as a list of timestamps, `none` when some cell is not a
timestamp. -/
def dtListOf : List Value → Option (List Dtime)
  | [] => some []
  | v :: vs =>
    match asDt v, dtListOf vs with
    | some d, some ds => some (d :: ds)
    | _, _ => none

/-- `df['lastmodified'].max()` over a datetime column (line 179); a missing
column is a `KeyError`, a column that is not all timestamps (or is empty) is
the `TypeError`/`NaT` failure of mixed-type reduction. -/
def maxOfCol (df : DF) (c : String) : Except PyErr Dtime :=
  match getCol df c with
  | none => .error .keyError
  | some vs =>
    match dtListOf vs with
    | none => .error .typeError
    | some [] => .error .typeError
    | some (d :: ds) => .ok (ds.foldl dtMax d)

/-- External collaborators and ambient inputs of one `migrate_table` run: the
source connection (`connect_onprem_sql`), the source's reply to the full
resp. incremental `SELECT` of `extract_data` (lines 66-87, the incremental
query binds the current watermark), the sink's reply to `load_to_adls`, and
the wall clock. -/
structure Env where
  connect : Except PyErr Unit
  queryFull : Except PyErr DF
  queryIncr : Dtime → Except PyErr DF
  load : DF → Except PyErr String
  now : Dtime

deriving instance DecidableEq for Except

/-- Observable outcome of one `migrate_table` run: the returned-or-raised
result, the final watermark file, and the dataframes handed to the sink. -/
structure MigOut where
  result : Except PyErr Unit
  file : Option (List String)
  loads : List DF
deriving DecidableEq

/-- `CloudMigrationPipeline.extract_data` (lines 66-87): incremental mode
first reads the watermark (whose `ValueError` would propagate) and queries
rows newer than it; full mode queries everything. -/
def extract_data (env : Env) (file : Option (List String)) (table_name : String)
    (incremental : Bool) : Except PyErr DF :=
  if incremental then
    match get_watermark file table_name with
    | .error e => .error e
    | .ok w => env.queryIncr w
  else env.queryFull

/-- Body of `migrate_table` after a successful extraction (lines 167-182):
return early on an empty batch, transform, load, then — only in incremental
mode and only when the frame still has a `lastmodified` column — append the
new watermark `df['lastmodified'].max()`.  `transform_for_synapse` renames
the argument frame's columns in place and returns the same object, so `df`
and `df_transformed` are one frame afterwards: the guard
`'lastmodified' in df.columns` observes the normalized names, written here
as the transformed frame throughout. -/
def migrate_body (env : Env) (file : Option (List String)) (table_name : String)
    (incremental : Bool) (df : DF) : MigOut :=
  if df.rows.isEmpty then ⟨.ok (), file, []⟩
  else
    match env.load (transform_for_synapse env.now df) with
    | .error e => ⟨.error e, file, [transform_for_synapse env.now df]⟩
    | .ok _ =>
      if incremental then
        if (transform_for_synapse env.now df).cols.contains "lastmodified" then
          match maxOfCol (transform_for_synapse env.now df) "lastmodified" with
          | .error e => ⟨.error e, file, [transform_for_synapse env.now df]⟩
          | .ok m => ⟨.ok (), update_watermark file table_name m,
              [transform_for_synapse env.now df]⟩
        else ⟨.ok (), file, [transform_for_synapse env.now df]⟩
      else ⟨.ok (), file, [transform_for_synapse env.now df]⟩

/-- `CloudMigrationPipeline.migrate_table` (lines 144-189).  Connect, extract,
then run the body; any exception is logged and re-raised; the connection is
closed on every path (not an observable of this model). -/
def migrate_table (env : Env) (file : Option (List String)) (table_name : String)
    (incremental : Bool) : MigOut :=
  match env.connect with
  | .error e => ⟨.error e, file, []⟩
  | .ok _ =>
    match extract_data env file table_name incremental with
    | .error e => ⟨.error e, file, []⟩
    | .ok df => migrate_body env file table_name incremental df

/-- All cells of a (change-tracking) column are valid timestamps strictly
newer than `w0`. -/
def goodColVals (w0 : Dtime) (vs : List Value) : Bool :=
  vs.all (fun v =>
    match v with
    | .dtV d => decide (d.valid) && decide (w0.rank < d.rank)
    | _ => false)

/-- Lift of `goodColVals` to an optional column. -/
def goodCol (w0 : Dtime) (o : Option (List Value)) : Bool :=
  match o with
  | some vs => goodColVals w0 vs
  | none => true

/-- Contract of the incremental source query issued with watermark `w0`
(`WHERE LastModified > ?`): a well-formed reply whose change-tracking column
(after name normalization) holds only valid timestamps strictly newer than
`w0`. -/
def GoodBatch (w0 : Dtime) (df : DF) : Prop :=
  DFwf df ∧ goodCol w0 (getCol (renameDF df) "lastmodified") = true

instance (w0 : Dtime) (df : DF) : Decidable (GoodBatch w0 df) := by
  unfold GoodBatch
  infer_instance

/-! ## Infrastructure lemmas -/

theorem splitOnChar_of_not_mem {sep : Char} {l : List Char} (h : sep ∉ l) :
    splitOnChar sep l = [l] := by
  induction l with
  | nil => rfl
  | cons c cs ih =>
    have hc : c ≠ sep := fun he => h (he ▸ List.mem_cons_self c cs)
    have hcs : sep ∉ cs := fun hm => h (List.mem_cons_of_mem c hm)
    simp only [splitOnChar, if_neg hc, ih hcs]

theorem splitOnChar_append {sep : Char} {a : List Char} (b : List Char) (h : sep ∉ a) :
    splitOnChar sep (a ++ sep :: b) = a :: splitOnChar sep b := by
  induction a with
  | nil => simp [splitOnChar]
  | cons c cs ih =>
    have hc : c ≠ sep := fun he => h (he ▸ List.mem_cons_self c cs)
    have hcs : sep ∉ cs := fun hm => h (List.mem_cons_of_mem c hm)
    simp only [List.cons_append, splitOnChar, List.append_eq, if_neg hc, ih hcs]

theorem dropWhile_eq_self_of_all {p : Char → Bool} {l : List Char}
    (h : ∀ c ∈ l, p c = false) : l.dropWhile p = l := by
  cases l with
  | nil => rfl
  | cons c cs => simp [List.dropWhile_cons, h c (List.mem_cons_self c cs)]

theorem stripWs_eq_self {l : List Char} (h : ∀ c ∈ l, isWsCh c = false) :
    stripWs l = l := by
  unfold stripWs
  rw [dropWhile_eq_self_of_all h, dropWhile_eq_self_of_all, List.reverse_reverse]
  intro c hc
  exact h c (List.mem_reverse.mp hc)

theorem isDig_digCh (n : Nat) : isDig (digCh n) = true := by
  by_cases h : n < 10
  · interval_cases n <;> rfl
  · have : digChars.length ≤ n := by simp [digChars]; omega
    rw [digCh, List.getD_eq_default _ _ this]
    rfl

theorem digVal_digCh {n : Nat} (h : n < 10) : digVal (digCh n) = n := by
  interval_cases n <;> rfl

theorem isWsCh_of_isDig {c : Char} (hc : isDig c = true) : isWsCh c = false := by
  unfold isWsCh
  have hs : c ≠ ' ' := by intro he; subst he; exact absurd hc (by decide)
  have ht : c ≠ '\t' := by intro he; subst he; exact absurd hc (by decide)
  have hn : c ≠ '\n' := by intro he; subst he; exact absurd hc (by decide)
  have hr : c ≠ '\r' := by intro he; subst he; exact absurd hc (by decide)
  simp [hs, ht, hn, hr]

theorem mem_pad2_isDig {c : Char} {n : Nat} (h : c ∈ pad2 n) : isDig c = true := by
  simp only [pad2, List.mem_cons, List.not_mem_nil, or_false] at h
  rcases h with h | h <;> (subst h; exact isDig_digCh _)

theorem mem_pad4_isDig {c : Char} {n : Nat} (h : c ∈ pad4 n) : isDig c = true := by
  simp only [pad4, List.mem_cons, List.not_mem_nil, or_false] at h
  rcases h with h | h | h | h <;> (subst h; exact isDig_digCh _)

theorem readNat2_pad2 {n : Nat} (h : n ≤ 99) : readNat2 (pad2 n) = some n := by
  have h1 : n / 10 < 10 := by omega
  have h2 : n % 10 < 10 := by omega
  simp only [pad2, readNat2, isDig_digCh, Bool.and_self, if_pos, digVal_digCh h1,
    digVal_digCh h2]
  congr 1
  omega

theorem readNat4_pad4 {n : Nat} (h : n ≤ 9999) : readNat4 (pad4 n) = some n := by
  have h1 : n / 1000 < 10 := by omega
  have h2 : n / 100 % 10 < 10 := by omega
  have h3 : n / 10 % 10 < 10 := by omega
  have h4 : n % 10 < 10 := by omega
  simp only [pad4, readNat4, isDig_digCh, Bool.and_self, if_pos, digVal_digCh h1,
    digVal_digCh h2, digVal_digCh h3, digVal_digCh h4]
  congr 1
  omega

theorem mem_dateData {c : Char} {d : Dtime} (h : c ∈ dateData d) :
    isDig c = true ∨ c = '-' := by
  simp only [dateData, List.mem_append, List.mem_cons] at h
  rcases h with h | h | h | h | h
  · exact Or.inl (mem_pad4_isDig h)
  · exact Or.inr h
  · exact Or.inl (mem_pad2_isDig h)
  · exact Or.inr h
  · exact Or.inl (mem_pad2_isDig h)

theorem mem_timeData {c : Char} {d : Dtime} (h : c ∈ timeData d) :
    isDig c = true ∨ c = ':' := by
  simp only [timeData, List.mem_append, List.mem_cons] at h
  rcases h with h | h | h | h | h
  · exact Or.inl (mem_pad2_isDig h)
  · exact Or.inr h
  · exact Or.inl (mem_pad2_isDig h)
  · exact Or.inr h
  · exact Or.inl (mem_pad2_isDig h)

theorem mem_isoData {c : Char} {d : Dtime} (h : c ∈ isoData d) :
    isDig c = true ∨ c = '-' ∨ c = ':' ∨ c = 'T' := by
  simp only [isoData, List.mem_append, List.mem_cons] at h
  rcases h with h | h | h
  · rcases mem_dateData h with h | h
    · exact Or.inl h
    · exact Or.inr (Or.inl h)
  · exact Or.inr (Or.inr (Or.inr h))
  · rcases mem_timeData h with h | h
    · exact Or.inl h
    · exact Or.inr (Or.inr (Or.inl h))

theorem not_T_mem_dateData {d : Dtime} : 'T' ∉ dateData d := by
  intro h
  rcases mem_dateData h with h | h
  · exact absurd h (by decide)
  · exact absurd h (by decide)

theorem not_T_mem_timeData {d : Dtime} : 'T' ∉ timeData d := by
  intro h
  rcases mem_timeData h with h | h
  · exact absurd h (by decide)
  · exact absurd h (by decide)

theorem not_dash_mem_pad2 {n : Nat} : '-' ∉ pad2 n := fun h =>
  absurd (mem_pad2_isDig h) (by decide)

theorem not_dash_mem_pad4 {n : Nat} : '-' ∉ pad4 n := fun h =>
  absurd (mem_pad4_isDig h) (by decide)

theorem not_colon_mem_pad2 {n : Nat} : ':' ∉ pad2 n := fun h =>
  absurd (mem_pad2_isDig h) (by decide)

theorem not_eq_mem_isoData {c : Char} {d : Dtime} (h : c ∈ isoData d) : c ≠ '=' := by
  rcases mem_isoData h with h | h | h | h
  · exact fun he => absurd (he ▸ h) (by decide)
  · subst h; decide
  · subst h; decide
  · subst h; decide

theorem not_ws_mem_isoData {c : Char} {d : Dtime} (h : c ∈ isoData d) :
    isWsCh c = false := by
  rcases mem_isoData h with h | h | h | h
  · exact isWsCh_of_isDig h
  · subst h; rfl
  · subst h; rfl
  · subst h; rfl

theorem parseDate_dateData {d : Dtime} (h : d.valid) :
    parseDate (dateData d) = some (d.year, d.month, d.day) := by
  obtain ⟨h1, h2, h3, h4, h5, h6, _, _, _⟩ := h
  have hsplit : splitOnChar '-' (dateData d) = [pad4 d.year, pad2 d.month, pad2 d.day] := by
    unfold dateData
    rw [splitOnChar_append _ not_dash_mem_pad4, splitOnChar_append _ not_dash_mem_pad2,
      splitOnChar_of_not_mem not_dash_mem_pad2]
  have hm : d.month ≤ 99 := by omega
  have hd : d.day ≤ 99 := by
    have : daysInMonth d.year d.month ≤ 31 := by
      unfold daysInMonth
      split
      · split <;> omega
      · split <;> omega
    omega
  unfold parseDate
  rw [hsplit]
  simp only [readNat4_pad4 h2, readNat2_pad2 hm, readNat2_pad2 hd]
  rw [if_pos ⟨h1, h3, h4, h5, h6⟩]

theorem parseTime_timeData {d : Dtime} (h : d.valid) :
    parseTime (timeData d) = some (d.hour, d.minute, d.second) := by
  obtain ⟨_, _, _, _, _, _, h7, h8, h9⟩ := h
  have hsplit : splitOnChar ':' (timeData d) = [pad2 d.hour, pad2 d.minute, pad2 d.second] := by
    unfold timeData
    rw [splitOnChar_append _ not_colon_mem_pad2, splitOnChar_append _ not_colon_mem_pad2,
      splitOnChar_of_not_mem not_colon_mem_pad2]
  unfold parseTime
  rw [hsplit]
  simp only [readNat2_pad2 (by omega : d.hour ≤ 99), readNat2_pad2 (by omega : d.minute ≤ 99),
    readNat2_pad2 (by omega : d.second ≤ 99)]
  rw [if_pos ⟨h7, h8, h9⟩]

/-- Within its validity range, `fromisoformat` inverts `isoformat` — the
round-trip the watermark file relies on. -/
theorem fromiso_isoDt {d : Dtime} (h : d.valid) : fromiso (isoDt d) = some d := by
  unfold fromiso isoDt isoData
  simp only
  rw [splitOnChar_append _ not_T_mem_dateData, splitOnChar_of_not_mem not_T_mem_timeData]
  simp only [parseDate_dateData h, parseTime_timeData h]

/-! ## Watermark-store lemmas -/

theorem mk_data (s : String) : String.mk s.data = s := rfl

theorem logLine_data (t : String) (w : Dtime) :
    (logLine t w).data = t.data ++ '=' :: isoData w := by
  unfold logLine
  rw [String.data_append, String.data_append, List.append_assoc]
  rfl

theorem logLine_eq_mk (t : String) (w : Dtime) :
    logLine t w = ⟨t.data ++ '=' :: isoData w⟩ := by
  conv_lhs => rw [← mk_data (logLine t w)]
  rw [logLine_data]

theorem parseRecord_logLine {t : String} (w : Dtime) (h : wfName t) :
    parseRecord (logLine t w) = .ok (t, isoDt w) := by
  obtain ⟨hne, hch⟩ := h
  have hnoeq : ('=' : Char) ∉ t.data := fun hm => (hch _ hm).1 rfl
  have hnoeqiso : ('=' : Char) ∉ isoData w := fun hm => not_eq_mem_isoData hm rfl
  have hstrip : pyStrip (logLine t w) = logLine t w := by
    unfold pyStrip
    conv_lhs => rw [logLine_data]
    rw [stripWs_eq_self, ← logLine_eq_mk]
    intro c hc
    rcases List.mem_append.mp hc with hc | hc
    · exact (hch c hc).2
    · rcases List.mem_cons.mp hc with hc | hc
      · subst hc
        rfl
      · exact not_ws_mem_isoData hc
  unfold parseRecord
  rw [hstrip]
  unfold pySplitEq
  rw [logLine_data, splitOnChar_append _ hnoeq, splitOnChar_of_not_mem hnoeqiso]
  simp only [List.map_cons, List.map_nil, mk_data]
  rfl

theorem parseRecord_error_valueError {line : String} {e : PyErr}
    (h : parseRecord line = .error e) : e = PyErr.valueError := by
  unfold parseRecord at h
  rcases hm : pySplitEq (pyStrip line) with _ | ⟨k, kt⟩
  · rw [hm] at h
    injection h with h
    exact h.symm
  · rcases kt with _ | ⟨v, vt⟩
    · rw [hm] at h
      injection h with h
      exact h.symm
    · rcases vt with _ | ⟨x, xt⟩
      · rw [hm] at h
        exact Except.noConfusion h
      · rw [hm] at h
        injection h with h
        exact h.symm

theorem buildDict_cons (l : String) (ls : List String) :
    buildDict (l :: ls) =
      match parseRecord l, buildDict ls with
      | .ok p, .ok d => .ok (p :: d)
      | .error e, _ => .error e
      | .ok _, .error e => .error e := rfl

theorem buildDict_append_ok {l1 : List String} {d1 : List (String × String)}
    (h : buildDict l1 = .ok d1) (l2 : List String) :
    buildDict (l1 ++ l2) =
      match buildDict l2 with
      | .ok d2 => .ok (d1 ++ d2)
      | .error e => .error e := by
  induction l1 generalizing d1 with
  | nil =>
    injection h with h
    subst h
    simp only [List.nil_append]
    cases hb : buildDict l2 <;> rfl
  | cons l ls ih =>
    rw [buildDict_cons] at h
    cases hl : parseRecord l with
    | error e =>
      rw [hl] at h
      exact Except.noConfusion h
    | ok p =>
      rw [hl] at h
      cases hls : buildDict ls with
      | error e =>
        rw [hls] at h
        exact Except.noConfusion h
      | ok d =>
        rw [hls] at h
        injection h with h
        subst h
        show buildDict (l :: (ls ++ l2)) = _
        rw [buildDict_cons, hl, ih hls]
        cases hb : buildDict l2 <;> rfl

theorem buildDict_error_valueError {lines : List String} :
    ∀ {e : PyErr}, buildDict lines = .error e → e = PyErr.valueError := by
  induction lines with
  | nil => exact fun h => Except.noConfusion h
  | cons l ls ih =>
    intro e h
    rw [buildDict_cons] at h
    cases hl : parseRecord l with
    | error e' =>
      rw [hl] at h
      cases hls : buildDict ls with
      | error e2 =>
        rw [hls] at h
        injection h with h
        exact h ▸ parseRecord_error_valueError hl
      | ok d =>
        rw [hls] at h
        injection h with h
        exact h ▸ parseRecord_error_valueError hl
    | ok p =>
      rw [hl] at h
      cases hls : buildDict ls with
      | error e2 =>
        rw [hls] at h
        injection h with h
        exact h ▸ ih hls
      | ok d =>
        rw [hls] at h
        exact Except.noConfusion h

theorem buildDict_logLines {hist : List (String × Dtime)} (h : ∀ p ∈ hist, wfName p.1) :
    buildDict (hist.map fun p => logLine p.1 p.2) =
      .ok (hist.map fun p => (p.1, isoDt p.2)) := by
  induction hist with
  | nil => rfl
  | cons p hist' ih =>
    have hp := h p (List.mem_cons_self p hist')
    have h' : ∀ q ∈ hist', wfName q.1 := fun q hq => h q (List.mem_cons_of_mem p hq)
    simp only [List.map_cons]
    rw [buildDict_cons, parseRecord_logLine _ hp, ih h']

theorem foldl_lookup_map (table : String) (hist : List (String × Dtime)) :
    ∀ a : Option Dtime,
      List.foldl (fun acc p => if p.1 = table then some (isoDt p.2) else acc)
        (a.map isoDt) hist =
      (List.foldl (fun acc p => if p.1 = table then some p.2 else acc) a hist).map isoDt := by
  induction hist with
  | nil => intro a; rfl
  | cons p hist' ih =>
    intro a
    simp only [List.foldl_cons]
    by_cases hp : p.1 = table
    · rw [if_pos hp, if_pos hp, ← ih p.2]
      rfl
    · rw [if_neg hp, if_neg hp, ih]

theorem dlookup_map (hist : List (String × Dtime)) (table : String) :
    dlookup (hist.map fun p => (p.1, isoDt p.2)) table = (lastOpt hist table).map isoDt := by
  unfold dlookup lastOpt
  rw [List.foldl_map]
  exact foldl_lookup_map table hist none

theorem lastOpt_mem_aux {table : String} {w : Dtime} :
    ∀ (l : List (String × Dtime)) (a : Option Dtime),
      List.foldl (fun acc p => if p.1 = table then some p.2 else acc) a l = some w →
      (table, w) ∈ l ∨ a = some w := by
  intro l
  induction l with
  | nil => intro a h; exact Or.inr h
  | cons p l' ih =>
    intro a h
    simp only [List.foldl_cons] at h
    rcases ih _ h with hm | hstep
    · exact Or.inl (List.mem_cons_of_mem p hm)
    · by_cases hp : p.1 = table
      · rw [if_pos hp] at hstep
        injection hstep with hstep
        left
        have : p = (table, w) := by
          cases p
          simp only [Prod.mk.injEq]
          exact ⟨hp, hstep⟩
        rw [← this]
        exact List.mem_cons_self p l'
      · rw [if_neg hp] at hstep
        exact Or.inr hstep

theorem lastOpt_mem {hist : List (String × Dtime)} {table : String} {w : Dtime}
    (h : lastOpt hist table = some w) : (table, w) ∈ hist := by
  rcases lastOpt_mem_aux hist none h with hm | hc
  · exact hm
  · cases hc

theorem get_watermark_some (lines : List String) (table : String) :
    get_watermark (some lines) table =
      match buildDict lines with
      | .error e => .error e
      | .ok d =>
        match fromiso ((dlookup d table).getD "1900-01-01") with
        | some w => .ok w
        | none => .error PyErr.valueError := rfl

/-- Claim C2: over any history of successful appends, `get_watermark` returns
the timestamp of the last `update_watermark` for the queried table
(last-write-wins over the append-only log), and the sentinel
`1900-01-01T00:00:00` when that table was never set. -/
theorem watermark_last_write_wins (hist : List (String × Dtime)) (table : String)
    (hw : ∀ p ∈ hist, wfName p.1 ∧ p.2.valid) :
    get_watermark (fileOfSets hist) table = .ok (lastWatermark hist table) := by
  cases hist with
  | nil => rfl
  | cons p hist' =>
    have hfile : fileOfSets (p :: hist') = some ((p :: hist').map fun q => logLine q.1 q.2) := rfl
    rw [hfile, get_watermark_some, buildDict_logLines (fun q hq => (hw q hq).1)]
    simp only [dlookup_map]
    cases hlast : lastOpt (p :: hist') table with
    | none =>
      unfold lastWatermark
      rw [hlast]
      decide
    | some w =>
      have hv : w.valid := (hw _ (lastOpt_mem hlast)).2
      unfold lastWatermark
      rw [hlast]
      simp only [Option.map_some', Option.getD_some]
      rw [fromiso_isoDt hv]

theorem dlookup_append_single (d : List (String × String)) (k v table : String) :
    dlookup (d ++ [(k, v)]) table = if k = table then some v else dlookup d table := by
  unfold dlookup
  rw [List.foldl_append]
  rfl

theorem buildDict_append_error {l1 : List String} {e : PyErr}
    (h : buildDict l1 = .error e) (l2 : List String) :
    buildDict (l1 ++ l2) = .error e := by
  induction l1 with
  | nil => exact Except.noConfusion h
  | cons l ls ih =>
    rw [buildDict_cons] at h
    rw [List.cons_append, buildDict_cons]
    revert h
    cases hl : parseRecord l with
    | error e' =>
      intro h
      injection h with h
      subst h
      rfl
    | ok p =>
      intro h
      revert h
      cases hls : buildDict ls with
      | error e2 =>
        intro h
        injection h with h
        subst h
        rw [ih hls]
      | ok d =>
        intro h
        exact Except.noConfusion h

/-- Counterexample to claim C6: a partial trailing record that lost its `=`
(here `"fact_sa"`) is not detected-and-ignored by `get_watermark` — the
`dict(...)` comprehension raises `ValueError` (only `FileNotFoundError` is
caught), so `get` raises rather than returning the preceding complete
watermark `2024-05-01T00:00:00` for `fact_sales`. -/
theorem get_watermark_error_on_partial_record :
    get_watermark (some ["fact_sales=2024-05-01T00:00:00", "fact_sa"]) "fact_sales" =
      .error PyErr.valueError := by
  decide

/-- Claim C6 as amended: a partial watermark write never silently corrupts a
previously stored value, but `get_watermark` does not ignore partial records.
(i) A trailing record that still has `key=value` shape, for a key other than
the queried table, leaves `get` unchanged; (ii) a trailing record without
exactly one `=` makes `get` raise `ValueError` for every table; (iii) a
`key=value` record for the queried table whose timestamp is truncated beyond
parsing also makes `get` raise `ValueError`. -/
theorem watermark_partial_record_behavior :
    (∀ (lines : List String) (rec k v table : String) (w : Dtime),
      parseRecord rec = .ok (k, v) → k ≠ table →
      get_watermark (some lines) table = .ok w →
      get_watermark (some (lines ++ [rec])) table = .ok w) ∧
    (∀ (lines : List String) (rec table : String) (e : PyErr),
      parseRecord rec = .error e →
      get_watermark (some (lines ++ [rec])) table = .error PyErr.valueError) ∧
    (∀ (lines : List String) (d : List (String × String)) (rec v table : String),
      buildDict lines = .ok d → parseRecord rec = .ok (table, v) → fromiso v = none →
      get_watermark (some (lines ++ [rec])) table = .error PyErr.valueError) := by
  refine ⟨?_, ?_, ?_⟩
  · intro lines rec k v table w h1 h2 h3
    rw [get_watermark_some] at h3
    cases hb : buildDict lines with
    | error e =>
      rw [hb] at h3
      exact Except.noConfusion h3
    | ok d =>
      rw [hb] at h3
      have hrec : buildDict [rec] = .ok [(k, v)] := by rw [buildDict_cons, h1]; rfl
      rw [get_watermark_some, buildDict_append_ok hb, hrec]
      show (match fromiso ((dlookup (d ++ [(k, v)]) table).getD "1900-01-01") with
            | some u => (Except.ok u : Except PyErr Dtime)
            | none => Except.error PyErr.valueError) = Except.ok w
      rw [dlookup_append_single, if_neg h2]
      exact h3
  · intro lines rec table e h1
    rw [get_watermark_some]
    cases hb : buildDict lines with
    | error e' =>
      have hall := buildDict_append_error hb [rec]
      rw [hall]
      have := buildDict_error_valueError hb
      subst this
      rfl
    | ok d =>
      have hrec : buildDict [rec] = .error e := by rw [buildDict_cons, h1]
      rw [buildDict_append_ok hb, hrec]
      have he := parseRecord_error_valueError h1
      subst he
      rfl
  · intro lines d rec v table hb h1 hf
    have hrec : buildDict [rec] = .ok [(table, v)] := by rw [buildDict_cons, h1]; rfl
    rw [get_watermark_some, buildDict_append_ok hb, hrec]
    show (match fromiso ((dlookup (d ++ [(table, v)]) table).getD "1900-01-01") with
          | some u => (Except.ok u : Except PyErr Dtime)
          | none => Except.error PyErr.valueError) = Except.error PyErr.valueError
    rw [dlookup_append_single, if_pos rfl]
    simp only [Option.getD_some]
    rw [hf]

/-- Witness for the amended C6: each of the three branches at a concrete log. -/
theorem watermark_partial_record_behavior_witness :
    get_watermark (some ["a=2024-05-01T00:00:00", "b=2024-06"]) "a" =
      .ok ⟨2024, 5, 1, 0, 0, 0⟩ ∧
    get_watermark (some ["a=2024-05-01T00:00:00", "b"]) "a" = .error PyErr.valueError ∧
    get_watermark (some ["a=2024-05-01T00:00:00", "a=2024-06"]) "a" =
      .error PyErr.valueError := by
  refine ⟨?_, ?_, ?_⟩
  · exact watermark_partial_record_behavior.1 ["a=2024-05-01T00:00:00"] "b=2024-06" "b"
      "2024-06" "a" ⟨2024, 5, 1, 0, 0, 0⟩ (by decide) (by decide) (by decide)
  · exact watermark_partial_record_behavior.2.1 ["a=2024-05-01T00:00:00"] "b" "a"
      PyErr.valueError (by decide)
  · exact watermark_partial_record_behavior.2.2 ["a=2024-05-01T00:00:00"]
      [("a", "2024-05-01T00:00:00")] "a=2024-06" "2024-06" "a" (by decide) (by decide)
      (by decide)

/-- Witness for C2 at a concrete two-set history. -/
theorem watermark_last_write_wins_witness :
    get_watermark
      (fileOfSets [("fact_sales", ⟨2024, 5, 1, 0, 0, 0⟩), ("fact_sales", ⟨2024, 6, 2, 12, 30, 5⟩)])
      "fact_sales" = .ok ⟨2024, 6, 2, 12, 30, 5⟩ := by
  have h := watermark_last_write_wins
    [("fact_sales", ⟨2024, 5, 1, 0, 0, 0⟩), ("fact_sales", ⟨2024, 6, 2, 12, 30, 5⟩)]
    "fact_sales" (by decide)
  rw [h]
  decide

/-! ## Dataframe and validator lemmas -/

theorem colIdx_isSome_iff {cols : List String} {c : String} :
    (colIdx cols c).isSome = true ↔ c ∈ cols := by
  unfold colIdx
  rw [List.findIdx?_isSome]
  simp [List.any_eq_true]

theorem colIdx_eq_none {cols : List String} {c : String} (h : c ∉ cols) :
    colIdx cols c = none := by
  unfold colIdx
  rw [List.findIdx?_eq_none_iff]
  intro x hx
  simp only [beq_eq_false_iff_ne, ne_eq]
  exact fun he => h (he ▸ hx)

theorem getCol_eq_none {df : DF} {c : String} (h : c ∉ df.cols) : getCol df c = none := by
  unfold getCol
  rw [colIdx_eq_none h]
  rfl

theorem mem_setColDF_cols {df : DF} {c x : String} {vs : List Value}
    (hx : x ∈ (setColDF df c vs).cols) : x ∈ df.cols ∨ x = c := by
  unfold setColDF at hx
  revert hx
  cases hidx : colIdx df.cols c with
  | some i => exact fun hx => Or.inl hx
  | none =>
    intro hx
    rcases List.mem_append.mp hx with hx | hx
    · exact Or.inl hx
    · exact Or.inr (List.mem_singleton.mp hx)

theorem validate_checksum_eq (h : HashPrims) (s t : DF) (key : String) :
    validate_checksum h s t key =
      match rowKeyList (addChecksum h s) key with
      | none => (false, addChecksum h s, t)
      | some sk =>
        match rowKeyList (addChecksum h t) key with
        | none => (false, addChecksum h s, addChecksum h t)
        | some tk => (decide ((symmDiff sk.toFinset tk.toFinset).card = 0),
            addChecksum h s, addChecksum h t) := rfl

theorem rowKeyList_addChecksum_none {h : HashPrims} {df : DF} {key : String}
    (hk : key ∉ df.cols) (hc : key ≠ "checksum") :
    rowKeyList (addChecksum h df) key = none := by
  have hmem : key ∉ (addChecksum h df).cols := by
    intro hm
    rcases mem_setColDF_cols hm with hm | hm
    · exact hk hm
    · exact hc hm
  unfold rowKeyList
  rw [getCol_eq_none hmem]

/-- Claim C1 is a code bug: the "fingerprint" of `validate_checksum` is the
builtin `hash(tuple(row.values))`, and CPython salts `hash(str)` per process
(PYTHONHASHSEED).  Two processes whose string-hash primitives differ on the
cell `"a"` (represented here by the two concrete `HashPrims` below) compute
different fingerprints — and hence different RowKeys — for the same logical
row, although the spec requires the digest to be identical across any two
executions.  The tuple-combination itself (`pyTupleHash`) is CPython's exact
deterministic algorithm, so the inequality is forced by the salted leaf hash
alone. -/
theorem rowkey_process_dependent :
    pyHashRow ⟨fun _ => 0, fun _ => 0, 0⟩ [Value.intV 7, Value.strV "a"] ≠
      pyHashRow ⟨fun _ => 1, fun _ => 0, 0⟩ [Value.intV 7, Value.strV "a"] ∧
    rowKeyList (addChecksum ⟨fun _ => 0, fun _ => 0, 0⟩ ⟨["id", "name"], [[Value.intV 7, Value.strV "a"]]⟩) "id" ≠
      rowKeyList (addChecksum ⟨fun _ => 1, fun _ => 0, 0⟩ ⟨["id", "name"], [[Value.intV 7, Value.strV "a"]]⟩) "id" := by
  constructor
  · decide
  · decide

/-- Counterexample to claim C4: `validate_checksum` mutates its source input
in place — `source_df['checksum'] = ...` adds a column, so the frame that
comes back is not the frame that went in. -/
theorem validate_checksum_mutates_cex :
    (validate_checksum ⟨fun _ => 0, fun _ => 0, 0⟩ ⟨["id"], [[Value.intV 1]]⟩
        ⟨["id"], [[Value.intV 1]]⟩ "id").2.1 ≠ ⟨["id"], [[Value.intV 1]]⟩ := by
  decide

/-- Claim C4 as amended: `validate_schema` and `validate_nulls` do not mutate
their inputs, but `validate_checksum` mutates both dataframes by assigning a
`checksum` column to each (the target only when the source key lookup did not
already fail). -/
theorem validators_mutation_profile (h : HashPrims) (s t : DF) (key : String)
    (sch1 sch2 : Schema) (df : DF) (cc : List String) :
    (validate_schema sch1 sch2).2 = (sch1, sch2) ∧
    (validate_nulls df cc).2 = df ∧
    (validate_checksum h s t key).2.1 = addChecksum h s ∧
    (validate_checksum h s t key).2.2 =
      (if (rowKeyList (addChecksum h s) key).isSome then addChecksum h t else t) := by
  refine ⟨rfl, ?_, ?_, ?_⟩
  · unfold validate_nulls
    split <;> rfl
  · rw [validate_checksum_eq]
    cases r1 : rowKeyList (addChecksum h s) key with
    | none => rfl
    | some sk =>
      cases r2 : rowKeyList (addChecksum h t) key with
      | none => rfl
      | some tk => rfl
  · rw [validate_checksum_eq]
    cases r1 : rowKeyList (addChecksum h s) key with
    | none => rfl
    | some sk =>
      cases r2 : rowKeyList (addChecksum h t) key with
      | none => rfl
      | some tk => rfl

/-- Counterexample to claim C5: `validate_nulls` has no `try/except`; listing
a critical column that the dataframe lacks raises `KeyError` instead of
returning `False`. -/
theorem validate_nulls_raises_cex :
    (validate_nulls ⟨["a"], [[Value.intV 1]]⟩ ["b"]).1 = .error PyErr.keyError := by
  decide

/-- Claim C5 as amended: `validate_checksum` (its `try/except` turns internal
failures such as a missing key column into a `False` return) and
`validate_schema` never raise; `validate_nulls` returns a boolean whenever
every critical column exists in the dataframe, but raises `KeyError` when a
critical column is absent. -/
theorem validators_error_reporting :
    (∀ (h : HashPrims) (s t : DF) (key : String), key ∉ s.cols → key ≠ "checksum" →
      (validate_checksum h s t key).1 = false) ∧
    (∀ (df : DF) (cc : List String), (∀ c ∈ cc, c ∈ df.cols) →
      ∃ b, (validate_nulls df cc).1 = .ok b) ∧
    (∀ (df : DF) (cc : List String) (c : String), c ∈ cc → c ∉ df.cols →
      (validate_nulls df cc).1 = .error PyErr.keyError) := by
  refine ⟨?_, ?_, ?_⟩
  · intro h s t key hk hc
    rw [validate_checksum_eq, rowKeyList_addChecksum_none hk hc]
  · intro df cc hall
    have hcond : cc.all (fun c => (colIdx df.cols c).isSome) = true := by
      rw [List.all_eq_true]
      intro c hc
      exact colIdx_isSome_iff.mpr (hall c hc)
    unfold validate_nulls
    rw [if_pos hcond]
    exact ⟨_, rfl⟩
  · intro df cc c hc hnc
    have hcond : ¬ cc.all (fun c => (colIdx df.cols c).isSome) = true := by
      rw [List.all_eq_true]
      intro hf
      exact hnc (colIdx_isSome_iff.mp (hf c hc))
    unfold validate_nulls
    rw [if_neg hcond]

/-- Witness for the amended C5 at concrete inputs. -/
theorem validators_error_reporting_witness :
    (validate_checksum ⟨fun _ => 0, fun _ => 0, 0⟩ ⟨["id"], [[Value.intV 1]]⟩
        ⟨["id"], [[Value.intV 1]]⟩ "nokey").1 = false ∧
    (∃ b, (validate_nulls ⟨["a"], [[Value.intV 1]]⟩ ["a"]).1 = .ok b) ∧
    (validate_nulls ⟨["a"], [[Value.nullV]]⟩ ["b"]).1 = .error PyErr.keyError := by
  refine ⟨?_, ?_, ?_⟩
  · exact validators_error_reporting.1 ⟨fun _ => 0, fun _ => 0, 0⟩
      ⟨["id"], [[Value.intV 1]]⟩ ⟨["id"], [[Value.intV 1]]⟩ "nokey" (by decide) (by decide)
  · exact validators_error_reporting.2.1 ⟨["a"], [[Value.intV 1]]⟩ ["a"] (by decide)
  · exact validators_error_reporting.2.2 ⟨["a"], [[Value.nullV]]⟩ ["b"] "b" (by decide)
      (by decide)

/-! ## ChecksumValidator set behavior (C8) -/

theorem zipWith_self_map {α β γ : Type} (g : α → β → γ) (f : α → β) (l : List α) :
    List.zipWith g l (l.map f) = l.map (fun x => g x (f x)) := by
  induction l with
  | nil => rfl
  | cons x xs ih => simp [ih]

theorem addChecksum_eq {h : HashPrims} {df : DF} (hcs : "checksum" ∉ df.cols) :
    addChecksum h df =
      ⟨df.cols ++ ["checksum"], df.rows.map (fun r => r ++ [Value.intV (pyHashRow h r)])⟩ := by
  unfold addChecksum setColDF
  rw [colIdx_eq_none hcs]
  show (⟨df.cols ++ ["checksum"],
      List.zipWith (fun r v => r ++ [v]) df.rows
        (df.rows.map (fun r => Value.intV (pyHashRow h r)))⟩ : DF) = _
  rw [zipWith_self_map]

theorem colIdx_lt_length {cols : List String} {c : String} {i : Nat}
    (h : colIdx cols c = some i) : i < cols.length :=
  (List.findIdx?_eq_some_iff_findIdx_eq.mp h).1

theorem colIdx_append_of_some {cols : List String} {c : String} {i : Nat} (l : List String)
    (h : colIdx cols c = some i) : colIdx (cols ++ l) c = some i := by
  unfold colIdx at h ⊢
  rw [List.findIdx?_append, h]
  rfl

theorem colIdx_append_self {cols : List String} {c : String} (h : c ∉ cols) :
    colIdx (cols ++ [c]) c = some cols.length := by
  unfold colIdx
  rw [List.findIdx?_append]
  rw [show List.findIdx? (fun x => x == c) cols = none from colIdx_eq_none h]
  simp [List.findIdx?_cons]

theorem getCol_addChecksum_key {h : HashPrims} {df : DF} {key : String} {i : Nat}
    (hwf : DFwf df) (hcs : "checksum" ∉ df.cols) (hidx : colIdx df.cols key = some i) :
    getCol (addChecksum h df) key = some (df.rows.map (fun r => r.getD i Value.nullV)) := by
  rw [addChecksum_eq hcs]
  unfold getCol
  dsimp only
  rw [colIdx_append_of_some _ hidx]
  simp only [Option.map_some']
  congr 1
  rw [List.map_map]
  apply List.map_congr_left
  intro r hr
  have hlen : r.length = df.cols.length := hwf r hr
  have hi : i < r.length := by
    have := colIdx_lt_length hidx
    omega
  exact List.getD_append _ _ _ _ hi

theorem getCol_addChecksum_cs {h : HashPrims} {df : DF}
    (hwf : DFwf df) (hcs : "checksum" ∉ df.cols) :
    getCol (addChecksum h df) "checksum" =
      some (df.rows.map (fun r => Value.intV (pyHashRow h r))) := by
  rw [addChecksum_eq hcs]
  unfold getCol
  dsimp only
  rw [colIdx_append_self hcs]
  simp only [Option.map_some']
  congr 1
  rw [List.map_map]
  apply List.map_congr_left
  intro r hr
  have hlen : r.length = df.cols.length := hwf r hr
  show (r ++ [Value.intV (pyHashRow h r)]).getD df.cols.length Value.nullV = _
  rw [List.getD_append_right _ _ _ _ (by omega)]
  rw [hlen, Nat.sub_self]
  rfl

theorem rowKeyList_addChecksum {h : HashPrims} {df : DF} {key : String} {i : Nat}
    (hwf : DFwf df) (hcs : "checksum" ∉ df.cols) (hidx : colIdx df.cols key = some i) :
    rowKeyList (addChecksum h df) key = some (df.rows.map (rowKeyOf h i)) := by
  unfold rowKeyList
  rw [getCol_addChecksum_key hwf hcs hidx, getCol_addChecksum_cs hwf hcs]
  show some (List.zipWith (fun a b => pyStr a ++ "_" ++ pyStr b)
      (df.rows.map fun r => r.getD i Value.nullV)
      (df.rows.map fun r => Value.intV (pyHashRow h r))) = _
  rw [List.zipWith_map, List.zipWith_same]
  rfl

theorem list_perm_toFinset {l1 l2 : List String} (h : l1.Perm l2) :
    l1.toFinset = l2.toFinset := by
  ext x
  simp [List.mem_toFinset, h.mem_iff]

theorem symmDiff_insert_self {k : String} {T : Finset String} (hk : k ∉ T) :
    symmDiff (insert k T) T = {k} := by
  ext x
  simp only [Finset.mem_symmDiff, Finset.mem_insert, Finset.mem_singleton]
  constructor
  · rintro (⟨hx | hx, hnx⟩ | ⟨hx, hnx⟩)
    · exact hx
    · exact absurd hx hnx
    · exact absurd (Or.inr hx) hnx
  · rintro rfl
    exact Or.inl ⟨Or.inl rfl, hk⟩

theorem symmDiff_insert_insert {a b : String} {T : Finset String}
    (hab : a ≠ b) (ha : a ∉ T) (hb : b ∉ T) :
    symmDiff (insert a T) (insert b T) = {a, b} := by
  ext x
  simp only [Finset.mem_symmDiff, Finset.mem_insert, Finset.mem_singleton]
  constructor
  · rintro (⟨hx | hx, hnx⟩ | ⟨hx | hx, hnx⟩)
    · exact Or.inl hx
    · exact absurd (Or.inr hx) hnx
    · exact Or.inr hx
    · exact absurd (Or.inr hx) hnx
  · rintro (rfl | rfl)
    · exact Or.inl ⟨Or.inl rfl, fun hor => hor.elim (fun hx => hab hx) (fun hx => ha hx)⟩
    · exact Or.inr ⟨Or.inl rfl, fun hor => hor.elim (fun hx => hab hx.symm) (fun hx => hb hx)⟩

/-- Counterexample to claim C8: CPython's `hash` collides on `-1` and `-2`
(`hash(-1) == hash(-2) == -2`, embedded exactly in `pyIntHash`), so changing
the one non-key value of the single target row from `-1` to `-2` leaves the
row fingerprint — a function of the cell hashes — unchanged: the validator
returns pass with an empty difference instead of the claimed fail with a
difference of size 2.  The result is independent of the per-process string
hash (the rows hold only ints). -/
theorem checksum_collision_passes_cex :
    (validate_checksum ⟨fun _ => 0, fun _ => 0, 0⟩
        ⟨["id", "v"], [[Value.intV 1, Value.intV (-1)]]⟩
        ⟨["id", "v"], [[Value.intV 1, Value.intV (-2)]]⟩ "id").1 = true ∧
    checksumDiff ⟨fun _ => 0, fun _ => 0, 0⟩
        ⟨["id", "v"], [[Value.intV 1, Value.intV (-1)]]⟩
        ⟨["id", "v"], [[Value.intV 1, Value.intV (-2)]]⟩ "id" = ∅ := by
  constructor
  · decide
  · decide

/-- Claim C8 as amended: on well-formed frames with a present key column,
(1) equal rows in any order give pass with an empty difference;
(2) removing one row whose RowKey does not occur among the remaining rows
(business-key uniqueness) gives fail with the difference `{removed RowKey}`
of size 1; (3) changing one non-key value of one row gives fail with the
two-element difference `{stale RowKey, new RowKey}`, provided the modified
row's RowKey differs from the original's — i.e. the fingerprints differ,
which Python's `hash` does not guarantee for every value change (see the
`-1`/`-2` collision counterexample) — and both RowKeys are fresh for the
unchanged rows. -/
theorem checksum_validator_set_behavior :
    (∀ (h : HashPrims) (s t : DF) (key : String) (i : Nat),
      DFwf s → "checksum" ∉ s.cols → colIdx s.cols key = some i →
      t.cols = s.cols → t.rows.Perm s.rows →
      (validate_checksum h s t key).1 = true ∧ checksumDiff h s t key = ∅) ∧
    (∀ (h : HashPrims) (cols : List String) (l1 l2 : List (List Value))
      (r : List Value) (key : String) (i : Nat),
      DFwf ⟨cols, l1 ++ r :: l2⟩ → "checksum" ∉ cols → colIdx cols key = some i →
      rowKeyOf h i r ∉ (l1 ++ l2).map (rowKeyOf h i) →
      (validate_checksum h ⟨cols, l1 ++ r :: l2⟩ ⟨cols, l1 ++ l2⟩ key).1 = false ∧
      checksumDiff h ⟨cols, l1 ++ r :: l2⟩ ⟨cols, l1 ++ l2⟩ key = {rowKeyOf h i r} ∧
      (checksumDiff h ⟨cols, l1 ++ r :: l2⟩ ⟨cols, l1 ++ l2⟩ key).card = 1) ∧
    (∀ (h : HashPrims) (cols : List String) (l1 l2 : List (List Value))
      (r r' : List Value) (key : String) (i : Nat),
      DFwf ⟨cols, l1 ++ r :: l2⟩ → DFwf ⟨cols, l1 ++ r' :: l2⟩ →
      "checksum" ∉ cols → colIdx cols key = some i →
      r.getD i Value.nullV = r'.getD i Value.nullV →
      rowKeyOf h i r ≠ rowKeyOf h i r' →
      rowKeyOf h i r ∉ (l1 ++ l2).map (rowKeyOf h i) →
      rowKeyOf h i r' ∉ (l1 ++ l2).map (rowKeyOf h i) →
      (validate_checksum h ⟨cols, l1 ++ r :: l2⟩ ⟨cols, l1 ++ r' :: l2⟩ key).1 = false ∧
      checksumDiff h ⟨cols, l1 ++ r :: l2⟩ ⟨cols, l1 ++ r' :: l2⟩ key =
        {rowKeyOf h i r, rowKeyOf h i r'} ∧
      (checksumDiff h ⟨cols, l1 ++ r :: l2⟩ ⟨cols, l1 ++ r' :: l2⟩ key).card = 2) := by
  refine ⟨?_, ?_, ?_⟩
  · intro h s t key i hwf hcs hidx hcols hperm
    have hwft : DFwf t := by
      intro row hrow
      rw [hcols]
      exact hwf row (hperm.mem_iff.mp hrow)
    have hcst : "checksum" ∉ t.cols := by rw [hcols]; exact hcs
    have hidxt : colIdx t.cols key = some i := by rw [hcols]; exact hidx
    have hs := rowKeyList_addChecksum (h := h) hwf hcs hidx
    have ht := rowKeyList_addChecksum (h := h) hwft hcst hidxt
    have hfin : (t.rows.map (rowKeyOf h i)).toFinset =
        (s.rows.map (rowKeyOf h i)).toFinset := list_perm_toFinset (hperm.map _)
    constructor
    · rw [validate_checksum_eq, hs, ht]
      show decide ((symmDiff (s.rows.map (rowKeyOf h i)).toFinset
          (t.rows.map (rowKeyOf h i)).toFinset).card = 0) = true
      rw [hfin, symmDiff_self]
      rfl
    · unfold checksumDiff
      rw [hs, ht]
      show symmDiff (s.rows.map (rowKeyOf h i)).toFinset
          (t.rows.map (rowKeyOf h i)).toFinset = ∅
      rw [hfin, symmDiff_self]
      rfl
  · intro h cols l1 l2 r key i hwf hcs hidx hfresh
    have hwft : DFwf (⟨cols, l1 ++ l2⟩ : DF) := by
      intro row hrow
      apply hwf row
      rcases List.mem_append.mp hrow with hm | hm
      · exact List.mem_append.mpr (Or.inl hm)
      · exact List.mem_append.mpr (Or.inr (List.mem_cons_of_mem r hm))
    have hs := rowKeyList_addChecksum (h := h) hwf hcs hidx
    have ht := rowKeyList_addChecksum (h := h) hwft hcs hidx
    have hS : (((l1 ++ r :: l2).map (rowKeyOf h i)).toFinset : Finset String) =
        insert (rowKeyOf h i r) ((l1 ++ l2).map (rowKeyOf h i)).toFinset := by
      ext x
      simp only [List.mem_toFinset, List.mem_map, List.mem_append, List.mem_cons,
        Finset.mem_insert]
      constructor
      · rintro ⟨a, ha, rfl⟩
        rcases ha with ha | ha | ha
        · exact Or.inr ⟨a, Or.inl ha, rfl⟩
        · subst ha
          exact Or.inl rfl
        · exact Or.inr ⟨a, Or.inr ha, rfl⟩
      · rintro (rfl | ⟨a, ha, rfl⟩)
        · exact ⟨r, Or.inr (Or.inl rfl), rfl⟩
        · rcases ha with ha | ha
          · exact ⟨a, Or.inl ha, rfl⟩
          · exact ⟨a, Or.inr (Or.inr ha), rfl⟩
    have hk : rowKeyOf h i r ∉ ((l1 ++ l2).map (rowKeyOf h i)).toFinset := by
      rw [List.mem_toFinset]
      exact hfresh
    have hdiff : checksumDiff h ⟨cols, l1 ++ r :: l2⟩ ⟨cols, l1 ++ l2⟩ key =
        {rowKeyOf h i r} := by
      unfold checksumDiff
      rw [hs, ht]
      show symmDiff ((l1 ++ r :: l2).map (rowKeyOf h i)).toFinset
          ((l1 ++ l2).map (rowKeyOf h i)).toFinset = _
      rw [hS]
      exact symmDiff_insert_self hk
    refine ⟨?_, hdiff, ?_⟩
    · rw [validate_checksum_eq, hs, ht]
      show decide ((symmDiff ((l1 ++ r :: l2).map (rowKeyOf h i)).toFinset
          ((l1 ++ l2).map (rowKeyOf h i)).toFinset).card = 0) = false
      rw [hS, symmDiff_insert_self hk]
      rfl
    · rw [hdiff]
      rfl
  · intro h cols l1 l2 r r' key i hwf hwf' hcs hidx hkeyeq hne hfr hfr'
    have hs := rowKeyList_addChecksum (h := h) hwf hcs hidx
    have ht := rowKeyList_addChecksum (h := h) hwf' hcs hidx
    have hS : ∀ (q : List Value), (((l1 ++ q :: l2).map (rowKeyOf h i)).toFinset : Finset String) =
        insert (rowKeyOf h i q) ((l1 ++ l2).map (rowKeyOf h i)).toFinset := by
      intro q
      ext x
      simp only [List.mem_toFinset, List.mem_map, List.mem_append, List.mem_cons,
        Finset.mem_insert]
      constructor
      · rintro ⟨a, ha, rfl⟩
        rcases ha with ha | ha | ha
        · exact Or.inr ⟨a, Or.inl ha, rfl⟩
        · subst ha
          exact Or.inl rfl
        · exact Or.inr ⟨a, Or.inr ha, rfl⟩
      · rintro (rfl | ⟨a, ha, rfl⟩)
        · exact ⟨q, Or.inr (Or.inl rfl), rfl⟩
        · rcases ha with ha | ha
          · exact ⟨a, Or.inl ha, rfl⟩
          · exact ⟨a, Or.inr (Or.inr ha), rfl⟩
    have hk : rowKeyOf h i r ∉ ((l1 ++ l2).map (rowKeyOf h i)).toFinset := by
      rw [List.mem_toFinset]
      exact hfr
    have hk' : rowKeyOf h i r' ∉ ((l1 ++ l2).map (rowKeyOf h i)).toFinset := by
      rw [List.mem_toFinset]
      exact hfr'
    have hdiff : checksumDiff h ⟨cols, l1 ++ r :: l2⟩ ⟨cols, l1 ++ r' :: l2⟩ key =
        {rowKeyOf h i r, rowKeyOf h i r'} := by
      unfold checksumDiff
      rw [hs, ht]
      show symmDiff ((l1 ++ r :: l2).map (rowKeyOf h i)).toFinset
          ((l1 ++ r' :: l2).map (rowKeyOf h i)).toFinset = _
      rw [hS r, hS r']
      exact symmDiff_insert_insert hne hk hk'
    refine ⟨?_, hdiff, ?_⟩
    · rw [validate_checksum_eq, hs, ht]
      show decide ((symmDiff ((l1 ++ r :: l2).map (rowKeyOf h i)).toFinset
          ((l1 ++ r' :: l2).map (rowKeyOf h i)).toFinset).card = 0) = false
      rw [hS r, hS r', symmDiff_insert_insert hne hk hk']
      have hcard := Finset.card_pair hne
      rw [show ({rowKeyOf h i r, rowKeyOf h i r'} : Finset String).card = 2 from hcard]
      rfl
    · rw [hdiff]
      exact Finset.card_pair hne

/-- Witness for the amended C8 at concrete two-row frames. -/
theorem checksum_validator_set_behavior_witness :
    ((validate_checksum ⟨fun _ => 0, fun _ => 0, 0⟩
        ⟨["id", "v"], [[Value.intV 1, Value.intV 10], [Value.intV 2, Value.intV 20]]⟩
        ⟨["id", "v"], [[Value.intV 2, Value.intV 20], [Value.intV 1, Value.intV 10]]⟩
        "id").1 = true ∧
      checksumDiff ⟨fun _ => 0, fun _ => 0, 0⟩
        ⟨["id", "v"], [[Value.intV 1, Value.intV 10], [Value.intV 2, Value.intV 20]]⟩
        ⟨["id", "v"], [[Value.intV 2, Value.intV 20], [Value.intV 1, Value.intV 10]]⟩
        "id" = ∅) ∧
    ((validate_checksum ⟨fun _ => 0, fun _ => 0, 0⟩
        ⟨["id", "v"], [[Value.intV 1, Value.intV 10], [Value.intV 2, Value.intV 20]]⟩
        ⟨["id", "v"], [[Value.intV 1, Value.intV 10]]⟩ "id").1 = false ∧
      checksumDiff ⟨fun _ => 0, fun _ => 0, 0⟩
        ⟨["id", "v"], [[Value.intV 1, Value.intV 10], [Value.intV 2, Value.intV 20]]⟩
        ⟨["id", "v"], [[Value.intV 1, Value.intV 10]]⟩ "id" =
        {rowKeyOf ⟨fun _ => 0, fun _ => 0, 0⟩ 0 [Value.intV 2, Value.intV 20]} ∧
      (checksumDiff ⟨fun _ => 0, fun _ => 0, 0⟩
        ⟨["id", "v"], [[Value.intV 1, Value.intV 10], [Value.intV 2, Value.intV 20]]⟩
        ⟨["id", "v"], [[Value.intV 1, Value.intV 10]]⟩ "id").card = 1) ∧
    ((validate_checksum ⟨fun _ => 0, fun _ => 0, 0⟩
        ⟨["id", "v"], [[Value.intV 1, Value.intV 10]]⟩
        ⟨["id", "v"], [[Value.intV 1, Value.intV 99]]⟩ "id").1 = false ∧
      checksumDiff ⟨fun _ => 0, fun _ => 0, 0⟩
        ⟨["id", "v"], [[Value.intV 1, Value.intV 10]]⟩
        ⟨["id", "v"], [[Value.intV 1, Value.intV 99]]⟩ "id" =
        {rowKeyOf ⟨fun _ => 0, fun _ => 0, 0⟩ 0 [Value.intV 1, Value.intV 10],
          rowKeyOf ⟨fun _ => 0, fun _ => 0, 0⟩ 0 [Value.intV 1, Value.intV 99]} ∧
      (checksumDiff ⟨fun _ => 0, fun _ => 0, 0⟩
        ⟨["id", "v"], [[Value.intV 1, Value.intV 10]]⟩
        ⟨["id", "v"], [[Value.intV 1, Value.intV 99]]⟩ "id").card = 2) := by
  refine ⟨?_, ?_, ?_⟩
  · exact checksum_validator_set_behavior.1 ⟨fun _ => 0, fun _ => 0, 0⟩
      ⟨["id", "v"], [[Value.intV 1, Value.intV 10], [Value.intV 2, Value.intV 20]]⟩
      ⟨["id", "v"], [[Value.intV 2, Value.intV 20], [Value.intV 1, Value.intV 10]]⟩
      "id" 0 (by decide) (by decide) (by decide) (by decide) (by decide)
  · exact checksum_validator_set_behavior.2.1 ⟨fun _ => 0, fun _ => 0, 0⟩ ["id", "v"]
      [[Value.intV 1, Value.intV 10]] [] [Value.intV 2, Value.intV 20] "id" 0
      (by decide) (by decide) (by decide) (by decide)
  · exact checksum_validator_set_behavior.2.2 ⟨fun _ => 0, fun _ => 0, 0⟩ ["id", "v"]
      [] [] [Value.intV 1, Value.intV 10] [Value.intV 1, Value.intV 99] "id" 0
      (by decide) (by decide) (by decide) (by decide) (by decide) (by decide) (by decide)
      (by decide)

/-! ## Transformer lemmas -/

theorem zipWith_replicate_right {α β γ : Type} (f : α → β → γ) (b : β) :
    ∀ (as : List α), List.zipWith f as (List.replicate as.length b) = as.map (fun a => f a b)
  | [] => rfl
  | a :: as => by
    simp only [List.length_cons, List.replicate_succ, List.zipWith_cons_cons, List.map_cons]
    rw [zipWith_replicate_right f b as]

theorem setColDF_eq_set {df : DF} {c : String} {vs : List Value} {j : Nat}
    (hc : colIdx df.cols c = some j) :
    setColDF df c vs = ⟨df.cols, List.zipWith (fun r v => r.set j v) df.rows vs⟩ := by
  unfold setColDF
  rw [hc]

theorem setColDF_eq_append {df : DF} {c : String} {vs : List Value}
    (hc : colIdx df.cols c = none) :
    setColDF df c vs = ⟨df.cols ++ [c], List.zipWith (fun r v => r ++ [v]) df.rows vs⟩ := by
  unfold setColDF
  rw [hc]

theorem colIdx_getElem {cols : List String} {c : String} {i : Nat}
    (h : colIdx cols c = some i) : ∃ hlt : i < cols.length, cols[i] = c := by
  obtain ⟨hlt, hp, _⟩ := List.findIdx?_eq_some_iff_getElem.mp h
  exact ⟨hlt, by simpa using hp⟩

theorem colIdx_ne_of_names {cols : List String} {c1 c2 : String} {i j : Nat}
    (h1 : colIdx cols c1 = some i) (h2 : colIdx cols c2 = some j) (hne : c1 ≠ c2) :
    i ≠ j := by
  intro he
  obtain ⟨_, e1⟩ := colIdx_getElem h1
  obtain ⟨_, e2⟩ := colIdx_getElem h2
  subst he
  exact hne (e1.symm.trans e2)

theorem colStable_setColDF {df : DF} {c name : String} {v : Value} {i : Nat} {vs : List Value}
    (hidx : colIdx df.cols name = some i)
    (hmap : df.rows.map (fun r => r.getD i Value.nullV) = vs)
    (hbound : ∀ r ∈ df.rows, i < r.length)
    (hname : name ≠ c) :
    colIdx (setColDF df c (List.replicate df.rows.length v)).cols name = some i ∧
    (setColDF df c (List.replicate df.rows.length v)).rows.map
      (fun r => r.getD i Value.nullV) = vs ∧
    (∀ r ∈ (setColDF df c (List.replicate df.rows.length v)).rows, i < r.length) ∧
    (setColDF df c (List.replicate df.rows.length v)).rows.length = df.rows.length := by
  cases hc : colIdx df.cols c with
  | some j =>
    rw [setColDF_eq_set hc]
    have hij : i ≠ j := colIdx_ne_of_names hidx hc hname
    rw [show List.zipWith (fun r v => r.set j v) df.rows (List.replicate df.rows.length v) =
        df.rows.map (fun r => r.set j v) from zipWith_replicate_right _ _ _]
    refine ⟨hidx, ?_, ?_, ?_⟩
    · rw [List.map_map, ← hmap]
      apply List.map_congr_left
      intro r hr
      show (r.set j v).getD i Value.nullV = r.getD i Value.nullV
      simp only [List.getD_eq_getElem?_getD]
      rw [List.getElem?_set_ne (Ne.symm hij)]
    · intro r' hr'
      rcases List.mem_map.mp hr' with ⟨r, hr, rfl⟩
      show i < (r.set j v).length
      rw [List.length_set]
      exact hbound r hr
    · rw [List.length_map]
  | none =>
    rw [setColDF_eq_append hc]
    rw [show List.zipWith (fun r v => r ++ [v]) df.rows (List.replicate df.rows.length v) =
        df.rows.map (fun r => r ++ [v]) from zipWith_replicate_right _ _ _]
    refine ⟨colIdx_append_of_some [c] hidx, ?_, ?_, ?_⟩
    · rw [List.map_map, ← hmap]
      apply List.map_congr_left
      intro r hr
      show (r ++ [v]).getD i Value.nullV = r.getD i Value.nullV
      exact List.getD_append _ _ _ _ (hbound r hr)
    · intro r' hr'
      rcases List.mem_map.mp hr' with ⟨r, hr, rfl⟩
      show i < (r ++ [v]).length
      rw [List.length_append]
      have := hbound r hr
      omega
    · rw [List.length_map]

theorem getD_zipWith_ite {quals : List Bool} {r : List Value} {i : Nat}
    (hq : i < quals.length) (hr : i < r.length) :
    (List.zipWith (fun q v => if q then coerceVal v else v) quals r).getD i Value.nullV =
      (if quals.getD i false then coerceVal (r.getD i Value.nullV)
       else r.getD i Value.nullV) := by
  simp only [List.getD_eq_getElem?_getD, List.getElem?_zipWith]
  rw [List.getElem?_eq_getElem hq, List.getElem?_eq_getElem hr]
  rfl

theorem getD_range_map {g : Nat → Bool} {n i : Nat} (h : i < n) :
    ((List.range n).map g).getD i false = g i := by
  simp only [List.getD_eq_getElem?_getD, List.getElem?_map, List.getElem?_range h]
  rfl

theorem colStable_coerceCols {d : DF} {name : String} {i : Nat} {vs : List Value}
    (hidx : colIdx d.cols name = some i)
    (hmap : d.rows.map (fun r => r.getD i Value.nullV) = vs)
    (hbound : ∀ r ∈ d.rows, i < r.length)
    (hq : colQualifies vs = false) :
    colIdx (coerceCols d).cols name = some i ∧
    (coerceCols d).rows.map (fun r => r.getD i Value.nullV) = vs ∧
    (∀ r ∈ (coerceCols d).rows, i < r.length) ∧
    (coerceCols d).rows.length = d.rows.length := by
  have hin : i < d.cols.length := colIdx_lt_length hidx
  have hqi : ((List.range d.cols.length).map
      (fun k => colQualifies (colAt d k))).getD i false = false := by
    rw [getD_range_map hin]
    show colQualifies (colAt d i) = false
    rw [show colAt d i = vs from hmap]
    exact hq
  refine ⟨hidx, ?_, ?_, ?_⟩
  · show (d.rows.map fun r => List.zipWith _
        ((List.range d.cols.length).map (fun k => colQualifies (colAt d k))) r).map
        (fun r => r.getD i Value.nullV) = vs
    rw [List.map_map, ← hmap]
    apply List.map_congr_left
    intro r hr
    show (List.zipWith _ ((List.range d.cols.length).map
        (fun k => colQualifies (colAt d k))) r).getD i Value.nullV = r.getD i Value.nullV
    rw [getD_zipWith_ite (by simp; omega) (hbound r hr), hqi]
    simp
  · intro r' hr'
    rcases List.mem_map.mp hr' with ⟨r, hr, rfl⟩
    show i < (List.zipWith _ _ r).length
    rw [List.length_zipWith]
    have h1 := hbound r hr
    have h2 : ((List.range d.cols.length).map
        (fun k => colQualifies (colAt d k))).length = d.cols.length := by simp
    omega
  · show (d.rows.map _).length = d.rows.length
    rw [List.length_map]

theorem colStable_transform (now : Dtime) {df : DF} {i : Nat} {vs : List Value}
    (hidx : colIdx (renameDF df).cols "lastmodified" = some i)
    (hmap : df.rows.map (fun r => r.getD i Value.nullV) = vs)
    (hbound : ∀ r ∈ df.rows, i < r.length)
    (hq : colQualifies vs = false) :
    getCol (transform_for_synapse now df) "lastmodified" = some vs := by
  have h2 := colStable_coerceCols (d := renameDF df) hidx hmap hbound hq
  obtain ⟨hi2, hm2, hb2, hl2⟩ := h2
  have h3 := colStable_setColDF (v := Value.dtV now) hi2 hm2 hb2
    (by decide : "lastmodified" ≠ "_ingestion_timestamp")
  obtain ⟨hi3, hm3, hb3, hl3⟩ := h3
  have h4 := colStable_setColDF (v := Value.strV "legacy_sql_server") hi3 hm3 hb3
    (by decide : "lastmodified" ≠ "_source_system")
  rw [hl3] at h4
  obtain ⟨hi4, hm4, hb4, hl4⟩ := h4
  have h5 := colStable_setColDF (v := Value.strV (batchId now)) hi4 hm4 hb4
    (by decide : "lastmodified" ≠ "_migration_batch_id")
  rw [hl4] at h5
  obtain ⟨hi5, hm5, _, _⟩ := h5
  unfold transform_for_synapse
  unfold getCol
  rw [hi5]
  simp only [Option.map_some']
  exact congrArg some hm5

theorem mem_transform_cols {now : Dtime} {df : DF} {x : String}
    (hx : x ∈ (transform_for_synapse now df).cols) :
    x ∈ df.cols.map normName ∨ x = "_ingestion_timestamp" ∨ x = "_source_system" ∨
      x = "_migration_batch_id" := by
  unfold transform_for_synapse at hx
  rcases mem_setColDF_cols hx with hx | hx
  · rcases mem_setColDF_cols hx with hx | hx
    · rcases mem_setColDF_cols hx with hx | hx
      · exact Or.inl hx
      · exact Or.inr (Or.inl hx)
    · exact Or.inr (Or.inr (Or.inl hx))
  · exact Or.inr (Or.inr (Or.inr hx))

theorem contains_eq_true_of_mem {l : List String} {a : String} (h : a ∈ l) :
    l.contains a = true := by
  simp [List.contains, List.elem_eq_mem, h]

theorem contains_eq_false_of_not_mem {l : List String} {a : String} (h : a ∉ l) :
    l.contains a = false := by
  simp [List.contains, List.elem_eq_mem, h]

theorem migrate_table_ok {env : Env} {file : Option (List String)} {table : String}
    {incremental : Bool} {df : DF}
    (hconn : env.connect = .ok ())
    (hext : extract_data env file table incremental = .ok df) :
    migrate_table env file table incremental = migrate_body env file table incremental df := by
  unfold migrate_table
  rw [hconn, hext]

/-- Claim C9: when the extraction succeeds with zero rows, `migrate_table`
returns successfully at once — nothing is handed to the sink and the
watermark file is untouched (the Transformer, Loader and watermark advance
are all skipped via the early `return`). -/
theorem migrate_zero_rows_noop (env : Env) (file : Option (List String)) (table : String)
    (incremental : Bool) (df : DF)
    (hconn : env.connect = .ok ())
    (hext : extract_data env file table incremental = .ok df)
    (hempty : df.rows = []) :
    migrate_table env file table incremental = ⟨.ok (), file, []⟩ := by
  rw [migrate_table_ok hconn hext]
  unfold migrate_body
  rw [hempty]
  rfl

/-- Witness for C9: a zero-row incremental run at a concrete environment. -/
theorem migrate_zero_rows_noop_witness :
    migrate_table
      ⟨.ok (), .ok ⟨["id"], []⟩, fun _ => .ok ⟨["id"], []⟩, fun _ => .ok "p",
        ⟨2024, 1, 1, 0, 0, 0⟩⟩
      (some ["t=2020-01-01T00:00:00"]) "t" true =
      ⟨.ok (), some ["t=2020-01-01T00:00:00"], []⟩ :=
  migrate_zero_rows_noop _ _ _ _ ⟨["id"], []⟩ rfl (by decide) rfl

/-- Claim C10: an incremental run whose non-empty extracted frame has no
column normalizing to exactly `lastmodified` completes successfully — the
transform and the load both execute — while the watermark advance is
silently skipped and the stored watermark is unchanged. -/
theorem migrate_missing_lastmodified_skips_advance (env : Env) (file : Option (List String))
    (table : String) (df : DF) (path : String)
    (hconn : env.connect = .ok ())
    (hext : extract_data env file table true = .ok df)
    (hne : df.rows ≠ [])
    (hcol : "lastmodified" ∉ df.cols.map normName)
    (hload : env.load (transform_for_synapse env.now df) = .ok path) :
    migrate_table env file table true =
      ⟨.ok (), file, [transform_for_synapse env.now df]⟩ := by
  have hnotin : "lastmodified" ∉ (transform_for_synapse env.now df).cols := by
    intro hm
    rcases mem_transform_cols hm with hm | hm | hm | hm
    · exact hcol hm
    · exact absurd hm (by decide)
    · exact absurd hm (by decide)
    · exact absurd hm (by decide)
  rw [migrate_table_ok hconn hext]
  unfold migrate_body
  rw [hload, contains_eq_false_of_not_mem hnotin]
  cases hrows : df.rows with
  | nil => exact absurd hrows hne
  | cons a l =>
    rfl

/-- Witness for C10: a concrete incremental run whose extracted frame has no
change-tracking column; the run succeeds, the transformed frame reaches the
sink, and the watermark file is unchanged. -/
theorem migrate_missing_lastmodified_witness :
    migrate_table
      ⟨.ok (), .ok ⟨["ID"], [[Value.intV 1]]⟩, fun _ => .ok ⟨["ID"], [[Value.intV 1]]⟩,
        fun _ => .ok "bronze/t", ⟨2024, 1, 1, 0, 0, 0⟩⟩
      (some ["t=2020-01-01T00:00:00"]) "t" true =
      ⟨.ok (), some ["t=2020-01-01T00:00:00"],
        [transform_for_synapse ⟨2024, 1, 1, 0, 0, 0⟩ ⟨["ID"], [[Value.intV 1]]⟩]⟩ :=
  migrate_missing_lastmodified_skips_advance _ _ _ ⟨["ID"], [[Value.intV 1]]⟩ "bronze/t"
    rfl (by decide) (by decide) (by decide) rfl

/-! ## Watermark advance in the orchestrator (C3, C7) -/

theorem rank_le_dtMax_right (a b : Dtime) : b.rank ≤ (dtMax a b).rank := by
  unfold dtMax
  split <;> omega

theorem dtMax_cases (a b : Dtime) : dtMax a b = a ∨ dtMax a b = b := by
  unfold dtMax
  split
  · exact Or.inr rfl
  · exact Or.inl rfl

theorem rank_le_dtMax_left (a b : Dtime) : a.rank ≤ (dtMax a b).rank := by
  unfold dtMax
  split <;> omega

theorem foldl_dtMax_mem : ∀ (ds : List Dtime) (d : Dtime),
    ds.foldl dtMax d = d ∨ ds.foldl dtMax d ∈ ds
  | [], _ => Or.inl rfl
  | x :: xs, d => by
    simp only [List.foldl_cons]
    rcases foldl_dtMax_mem xs (dtMax d x) with h | h
    · rcases dtMax_cases d x with hc | hc
      · exact Or.inl (h.trans hc)
      · right
        rw [h, hc]
        exact List.mem_cons_self x xs
    · exact Or.inr (List.mem_cons_of_mem x h)

theorem foldl_dtMax_ub : ∀ (ds : List Dtime) (d : Dtime),
    d.rank ≤ (ds.foldl dtMax d).rank ∧ ∀ x ∈ ds, x.rank ≤ (ds.foldl dtMax d).rank
  | [], d => ⟨Nat.le_refl _, by intro x hx; cases hx⟩
  | y :: ys, d => by
    simp only [List.foldl_cons]
    obtain ⟨h1, h2⟩ := foldl_dtMax_ub ys (dtMax d y)
    refine ⟨Nat.le_trans (rank_le_dtMax_left d y) h1, ?_⟩
    intro x hx
    rcases List.mem_cons.mp hx with rfl | hx
    · exact Nat.le_trans (rank_le_dtMax_right d x) h1
    · exact h2 x hx

theorem dtListOf_map (ds : List Dtime) : dtListOf (ds.map Value.dtV) = some ds := by
  induction ds with
  | nil => rfl
  | cons d ds ih =>
    simp only [List.map_cons]
    unfold dtListOf
    rw [ih]
    rfl

theorem maxOfCol_eq {df : DF} {c : String} {d0 : Dtime} {ds' : List Dtime}
    (hcol : getCol df c = some ((d0 :: ds').map Value.dtV)) :
    maxOfCol df c = .ok (ds'.foldl dtMax d0) := by
  unfold maxOfCol
  rw [hcol]
  show (match dtListOf (List.map Value.dtV (d0 :: ds')) with
        | none => (Except.error PyErr.typeError : Except PyErr Dtime)
        | some [] => Except.error PyErr.typeError
        | some (d :: ds) => Except.ok (List.foldl dtMax d ds)) = _
  rw [dtListOf_map]

theorem mem_cols_of_getCol {df : DF} {c : String} {vs : List Value}
    (h : getCol df c = some vs) : c ∈ df.cols := by
  unfold getCol at h
  cases hc : colIdx df.cols c with
  | none =>
    rw [hc] at h
    exact Option.noConfusion h
  | some i =>
    have hs : (colIdx df.cols c).isSome = true := by rw [hc]; rfl
    exact colIdx_isSome_iff.mp hs

theorem migrate_table_connect_error {env : Env} {file : Option (List String)}
    {table : String} {incr : Bool} {e : PyErr} (hconn : env.connect = .error e) :
    migrate_table env file table incr = ⟨.error e, file, []⟩ := by
  unfold migrate_table
  rw [hconn]

theorem migrate_table_extract_error {env : Env} {file : Option (List String)}
    {table : String} {incr : Bool} {e : PyErr} (hconn : env.connect = .ok ())
    (hext : extract_data env file table incr = .error e) :
    migrate_table env file table incr = ⟨.error e, file, []⟩ := by
  unfold migrate_table
  rw [hconn, hext]

theorem extract_data_incr {env : Env} {file : Option (List String)} {table : String}
    {w0 : Dtime} (h0 : get_watermark file table = .ok w0) :
    extract_data env file table true = env.queryIncr w0 := by
  unfold extract_data
  rw [h0]
  rfl

/-- Counterexample to claim C3: an incremental run whose extracted batch has
no column normalizing to `lastmodified` (the loader succeeded, the result is
success) does not advance the watermark — so "advanced exactly when the run
is incremental and the load succeeds" is false as stated. -/
theorem migrate_advance_skipped_cex :
    migrate_table
      ⟨.ok (), .ok ⟨["id"], [[Value.intV 1]]⟩, fun _ => .ok ⟨["id"], [[Value.intV 1]]⟩,
        fun _ => .ok "p", ⟨2024, 1, 1, 0, 0, 0⟩⟩
      (some ["t=2020-01-01T00:00:00"]) "t" true =
      ⟨.ok (), some ["t=2020-01-01T00:00:00"],
        [transform_for_synapse ⟨2024, 1, 1, 0, 0, 0⟩ ⟨["id"], [[Value.intV 1]]⟩]⟩ := by
  decide

/-- Claim C3 as amended: (a) the watermark is advanced when the run is
incremental, the load succeeds, and the transformed batch still has the
`lastmodified` change-tracking column (all timestamps), and then it is
advanced to the maximum change-tracking value observed in the extracted
batch; (b) a full-mode run never touches the watermark file; (c) a load
failure surfaces the error with the watermark unchanged; (d) conversely any
run that changes the watermark file is an incremental run that ended in
success. -/
theorem migrate_watermark_advance_exactly :
    (∀ (env : Env) (file : Option (List String)) (table : String) (w0 d0 : Dtime)
      (ds' : List Dtime) (df : DF) (path : String) (i : Nat),
      env.connect = .ok () →
      get_watermark file table = .ok w0 →
      env.queryIncr w0 = .ok df →
      colIdx (renameDF df).cols "lastmodified" = some i →
      df.rows.map (fun r => r.getD i Value.nullV) = (d0 :: ds').map Value.dtV →
      (∀ r ∈ df.rows, i < r.length) →
      env.load (transform_for_synapse env.now df) = .ok path →
      migrate_table env file table true =
        ⟨.ok (), some (file.getD [] ++ [logLine table (ds'.foldl dtMax d0)]),
          [transform_for_synapse env.now df]⟩ ∧
      (ds'.foldl dtMax d0 = d0 ∨ ds'.foldl dtMax d0 ∈ ds') ∧
      (∀ x ∈ d0 :: ds', x.rank ≤ (ds'.foldl dtMax d0).rank)) ∧
    (∀ (env : Env) (file : Option (List String)) (table : String),
      (migrate_table env file table false).file = file) ∧
    (∀ (env : Env) (file : Option (List String)) (table : String) (incr : Bool)
      (df : DF) (e : PyErr),
      env.connect = .ok () →
      extract_data env file table incr = .ok df →
      df.rows ≠ [] →
      env.load (transform_for_synapse env.now df) = .error e →
      migrate_table env file table incr =
        ⟨.error e, file, [transform_for_synapse env.now df]⟩) ∧
    (∀ (env : Env) (file : Option (List String)) (table : String) (incr : Bool),
      (migrate_table env file table incr).file ≠ file →
      incr = true ∧ (migrate_table env file table incr).result = .ok ()) := by
  refine ⟨?_, ?_, ?_, ?_⟩
  · intro env file table w0 d0 ds' df path i hconn h0 hq hidx hmap hbound hload
    have hvs : colQualifies ((d0 :: ds').map Value.dtV) = false := by
      simp [colQualifies, isParseableStr]
    have htr := colStable_transform env.now hidx hmap hbound hvs
    have hmem := mem_cols_of_getCol htr
    have hmax := maxOfCol_eq htr
    have hext : extract_data env file table true = .ok df :=
      (extract_data_incr h0).trans hq
    have hne : df.rows ≠ [] := by
      intro he
      rw [he] at hmap
      exact List.noConfusion hmap
    refine ⟨?_, foldl_dtMax_mem ds' d0, ?_⟩
    case refine_2 =>
      intro x hx
      rcases List.mem_cons.mp hx with rfl | hx
      · exact (foldl_dtMax_ub ds' x).1
      · exact (foldl_dtMax_ub ds' d0).2 x hx
    rw [migrate_table_ok hconn hext]
    unfold migrate_body
    rw [hload, contains_eq_true_of_mem hmem, hmax]
    cases hrows : df.rows with
    | nil => exact absurd hrows hne
    | cons a l => rfl
  · intro env file table
    cases hconn : env.connect with
    | error e => rw [migrate_table_connect_error hconn]
    | ok u =>
      cases u
      cases hext : extract_data env file table false with
      | error e => rw [migrate_table_extract_error hconn hext]
      | ok df =>
        rw [migrate_table_ok hconn hext]
        unfold migrate_body
        split
        · rfl
        · split
          · rfl
          · rfl
  · intro env file table incr df e hconn hext hne hload
    rw [migrate_table_ok hconn hext]
    unfold migrate_body
    rw [hload]
    cases hrows : df.rows with
    | nil => exact absurd hrows hne
    | cons a l => rfl
  · intro env file table incr h
    cases hconn : env.connect with
    | error e =>
      rw [migrate_table_connect_error hconn] at h
      exact absurd rfl h
    | ok u =>
      cases u
      cases hext : extract_data env file table incr with
      | error e =>
        rw [migrate_table_extract_error hconn hext] at h
        exact absurd rfl h
      | ok df =>
        rw [migrate_table_ok hconn hext] at h ⊢
        unfold migrate_body at h ⊢
        revert h
        cases hrows : df.rows.isEmpty with
        | true => intro h; exact absurd rfl h
        | false =>
          cases hload : env.load (transform_for_synapse env.now df) with
          | error e => intro h; exact absurd rfl h
          | ok p =>
            cases incr with
            | false => intro h; exact absurd rfl h
            | true =>
              cases hcont : (transform_for_synapse env.now df).cols.contains "lastmodified" with
              | false => intro h; exact absurd rfl h
              | true =>
                cases hmax : maxOfCol (transform_for_synapse env.now df) "lastmodified" with
                | error e => intro h; exact absurd rfl h
                | ok m => intro h; exact ⟨rfl, rfl⟩

/-- Witness for the amended C3: each branch at concrete inputs; branch (a)
advances the watermark of table `t` to the batch maximum
`2024-03-04T05:06:07`. -/
theorem migrate_watermark_advance_exactly_witness :
    (migrate_table
      ⟨.ok (), .ok ⟨["ID", "LastModified"], [[Value.intV 1, Value.dtV ⟨2024, 3, 4, 5, 6, 7⟩]]⟩,
        fun _ => .ok ⟨["ID", "LastModified"], [[Value.intV 1, Value.dtV ⟨2024, 3, 4, 5, 6, 7⟩]]⟩,
        fun _ => .ok "p", ⟨2024, 1, 1, 0, 0, 0⟩⟩
      (some ["t=2020-01-01T00:00:00"]) "t" true =
      ⟨.ok (), some (["t=2020-01-01T00:00:00"] ++
          [logLine "t" (([] : List Dtime).foldl dtMax ⟨2024, 3, 4, 5, 6, 7⟩)]),
        [transform_for_synapse ⟨2024, 1, 1, 0, 0, 0⟩
          ⟨["ID", "LastModified"], [[Value.intV 1, Value.dtV ⟨2024, 3, 4, 5, 6, 7⟩]]⟩]⟩) ∧
    (migrate_table
      ⟨.ok (), .ok ⟨["id"], [[Value.intV 1]]⟩, fun _ => .ok ⟨["id"], [[Value.intV 1]]⟩,
        fun _ => .ok "p", ⟨2024, 1, 1, 0, 0, 0⟩⟩ none "t" false).file = none ∧
    (migrate_table
      ⟨.ok (), .ok ⟨["id"], [[Value.intV 1]]⟩, fun _ => .ok ⟨["id"], [[Value.intV 1]]⟩,
        fun _ => .error (PyErr.other "sink down"), ⟨2024, 1, 1, 0, 0, 0⟩⟩ none "t" true =
      ⟨.error (PyErr.other "sink down"), none,
        [transform_for_synapse ⟨2024, 1, 1, 0, 0, 0⟩ ⟨["id"], [[Value.intV 1]]⟩]⟩) ∧
    (true = true ∧ (migrate_table
      ⟨.ok (), .ok ⟨["ID", "LastModified"], [[Value.intV 1, Value.dtV ⟨2024, 3, 4, 5, 6, 7⟩]]⟩,
        fun _ => .ok ⟨["ID", "LastModified"], [[Value.intV 1, Value.dtV ⟨2024, 3, 4, 5, 6, 7⟩]]⟩,
        fun _ => .ok "p", ⟨2024, 1, 1, 0, 0, 0⟩⟩ none "t" true).result = .ok ()) := by
  refine ⟨?_, ?_, ?_, ?_⟩
  · exact (migrate_watermark_advance_exactly.1
      ⟨.ok (), .ok ⟨["ID", "LastModified"], [[Value.intV 1, Value.dtV ⟨2024, 3, 4, 5, 6, 7⟩]]⟩,
        fun _ => .ok ⟨["ID", "LastModified"], [[Value.intV 1, Value.dtV ⟨2024, 3, 4, 5, 6, 7⟩]]⟩,
        fun _ => .ok "p", ⟨2024, 1, 1, 0, 0, 0⟩⟩
      (some ["t=2020-01-01T00:00:00"]) "t" ⟨2020, 1, 1, 0, 0, 0⟩ ⟨2024, 3, 4, 5, 6, 7⟩ []
      ⟨["ID", "LastModified"], [[Value.intV 1, Value.dtV ⟨2024, 3, 4, 5, 6, 7⟩]]⟩ "p" 1
      rfl (by decide) rfl (by decide) (by decide) (by decide) rfl).1
  · exact migrate_watermark_advance_exactly.2.1
      ⟨.ok (), .ok ⟨["id"], [[Value.intV 1]]⟩, fun _ => .ok ⟨["id"], [[Value.intV 1]]⟩,
        fun _ => .ok "p", ⟨2024, 1, 1, 0, 0, 0⟩⟩ none "t"
  · exact migrate_watermark_advance_exactly.2.2.1
      ⟨.ok (), .ok ⟨["id"], [[Value.intV 1]]⟩, fun _ => .ok ⟨["id"], [[Value.intV 1]]⟩,
        fun _ => .error (PyErr.other "sink down"), ⟨2024, 1, 1, 0, 0, 0⟩⟩ none "t" true
      ⟨["id"], [[Value.intV 1]]⟩ (PyErr.other "sink down") rfl (by decide) (by decide) rfl
  · exact migrate_watermark_advance_exactly.2.2.2
      ⟨.ok (), .ok ⟨["ID", "LastModified"], [[Value.intV 1, Value.dtV ⟨2024, 3, 4, 5, 6, 7⟩]]⟩,
        fun _ => .ok ⟨["ID", "LastModified"], [[Value.intV 1, Value.dtV ⟨2024, 3, 4, 5, 6, 7⟩]]⟩,
        fun _ => .ok "p", ⟨2024, 1, 1, 0, 0, 0⟩⟩ none "t" true (by decide)

theorem mem_of_contains_eq_true {l : List String} {a : String}
    (h : l.contains a = true) : a ∈ l := by
  rw [List.contains, List.elem_eq_mem] at h
  exact of_decide_eq_true h

theorem goodColVals_decomp {w0 : Dtime} {vs : List Value} (h : goodColVals w0 vs = true) :
    ∃ ds : List Dtime, vs = ds.map Value.dtV ∧ ∀ d ∈ ds, d.valid ∧ w0.rank < d.rank := by
  induction vs with
  | nil => exact ⟨[], rfl, by intro d hd; cases hd⟩
  | cons v vs ih =>
    unfold goodColVals at h
    rw [List.all_cons, Bool.and_eq_true] at h
    obtain ⟨hv, hvs⟩ := h
    obtain ⟨ds, hvs_eq, hall⟩ := ih hvs
    cases v with
    | intV n => exact Bool.noConfusion hv
    | strV s => exact Bool.noConfusion hv
    | nullV => exact Bool.noConfusion hv
    | dtV d =>
      rw [Bool.and_eq_true] at hv
      obtain ⟨hd1, hd2⟩ := hv
      refine ⟨d :: ds, ?_, ?_⟩
      · rw [List.map_cons, hvs_eq]
      · intro x hx
        rcases List.mem_cons.mp hx with rfl | hx
        · exact ⟨of_decide_eq_true hd1, of_decide_eq_true hd2⟩
        · exact hall x hx

theorem dlookup_singleton (k v : String) : dlookup [(k, v)] k = some v := by
  unfold dlookup
  simp

theorem get_watermark_after_update {file : Option (List String)} {table : String}
    {w0 m : Dtime} (hwfn : wfName table) (hm : m.valid)
    (h0 : get_watermark file table = .ok w0) :
    get_watermark (update_watermark file table m) table = .ok m := by
  have hrec : buildDict [logLine table m] = .ok [(table, isoDt m)] := by
    rw [buildDict_cons, parseRecord_logLine m hwfn]
    rfl
  cases file with
  | none =>
    show get_watermark (some ([] ++ [logLine table m])) table = .ok m
    rw [get_watermark_some, List.nil_append, hrec]
    show (match fromiso ((dlookup [(table, isoDt m)] table).getD "1900-01-01") with
          | some u => (Except.ok u : Except PyErr Dtime)
          | none => Except.error PyErr.valueError) = Except.ok m
    rw [dlookup_singleton]
    simp only [Option.getD_some]
    rw [fromiso_isoDt hm]
  | some lines =>
    rw [get_watermark_some] at h0
    cases hb : buildDict lines with
    | error e =>
      rw [hb] at h0
      exact Except.noConfusion h0
    | ok d =>
      show get_watermark (some (lines ++ [logLine table m])) table = .ok m
      rw [get_watermark_some, buildDict_append_ok hb, hrec]
      show (match fromiso ((dlookup (d ++ [(table, isoDt m)]) table).getD "1900-01-01") with
            | some u => (Except.ok u : Except PyErr Dtime)
            | none => Except.error PyErr.valueError) = Except.ok m
      rw [dlookup_append_single, if_pos rfl]
      simp only [Option.getD_some]
      rw [fromiso_isoDt hm]

/-- Claim C7: monotonicity of the effective watermark.  Whenever the
incremental source honors its `WHERE LastModified > watermark` contract
(`GoodBatch`), a successful `migrate_table` run — full or incremental,
advancing or not — leaves `get_watermark` returning a timestamp at least as
late as the one it returned before the run. -/
theorem watermark_monotone (env : Env) (file : Option (List String)) (table : String)
    (incr : Bool) (w0 : Dtime)
    (hwfn : wfName table)
    (h0 : get_watermark file table = .ok w0)
    (hq : ∀ df, env.queryIncr w0 = .ok df → GoodBatch w0 df)
    (hok : (migrate_table env file table incr).result = .ok ()) :
    ∃ w1, get_watermark (migrate_table env file table incr).file table = .ok w1 ∧
      w0.rank ≤ w1.rank := by
  cases hconn : env.connect with
  | error e =>
    rw [migrate_table_connect_error hconn] at hok
    exact Except.noConfusion hok
  | ok u =>
    cases u
    cases hext : extract_data env file table incr with
    | error e =>
      rw [migrate_table_extract_error hconn hext] at hok
      exact Except.noConfusion hok
    | ok df =>
      rw [migrate_table_ok hconn hext] at hok ⊢
      unfold migrate_body at hok ⊢
      revert hok
      cases hrows : df.rows.isEmpty with
      | true => exact fun _ => ⟨w0, h0, Nat.le_refl _⟩
      | false =>
        cases hload : env.load (transform_for_synapse env.now df) with
        | error e => exact fun hok => Except.noConfusion hok
        | ok p =>
          cases incr with
          | false => exact fun _ => ⟨w0, h0, Nat.le_refl _⟩
          | true =>
            cases hcont : (transform_for_synapse env.now df).cols.contains "lastmodified" with
            | false => exact fun _ => ⟨w0, h0, Nat.le_refl _⟩
            | true =>
              have hdf : env.queryIncr w0 = .ok df := (extract_data_incr h0).symm.trans hext
              obtain ⟨hwf, hgc⟩ := hq df hdf
              have hmem := mem_of_contains_eq_true hcont
              have hm2 : "lastmodified" ∈ (renameDF df).cols := by
                rcases mem_transform_cols hmem with hm | hm | hm | hm
                · exact hm
                · exact absurd hm (by decide)
                · exact absurd hm (by decide)
                · exact absurd hm (by decide)
              obtain ⟨i, hidx⟩ := Option.isSome_iff_exists.mp (colIdx_isSome_iff.mpr hm2)
              have hcolr : getCol (renameDF df) "lastmodified" =
                  some (df.rows.map (fun r => r.getD i Value.nullV)) := by
                unfold getCol
                rw [hidx]
                rfl
              have hgood : goodColVals w0 (df.rows.map (fun r => r.getD i Value.nullV)) = true := by
                rw [hcolr] at hgc
                exact hgc
              obtain ⟨ds, hmap, hall⟩ := goodColVals_decomp hgood
              have hne : df.rows ≠ [] := by
                intro he
                rw [he] at hrows
                exact Bool.noConfusion hrows
              cases ds with
              | nil =>
                rw [List.map_nil] at hmap
                exact absurd (List.map_eq_nil_iff.mp hmap) hne
              | cons d0 ds' =>
                have hbound : ∀ r ∈ df.rows, i < r.length := by
                  intro r hr
                  rw [hwf r hr]
                  have hlt := colIdx_lt_length hidx
                  unfold renameDF at hlt
                  rw [List.length_map] at hlt
                  exact hlt
                have hvsq : colQualifies ((d0 :: ds').map Value.dtV) = false := by
                  simp [colQualifies, isParseableStr]
                have htr := colStable_transform env.now hidx hmap hbound hvsq
                have hmax := maxOfCol_eq htr
                rw [hmax]
                intro _
                have hmmem : ds'.foldl dtMax d0 ∈ d0 :: ds' := by
                  rcases foldl_dtMax_mem ds' d0 with hc | hc
                  · rw [hc]
                    exact List.mem_cons_self d0 ds'
                  · exact List.mem_cons_of_mem d0 hc
                obtain ⟨hval, hgt⟩ := hall _ hmmem
                refine ⟨ds'.foldl dtMax d0, ?_, Nat.le_of_lt hgt⟩
                exact get_watermark_after_update hwfn hval h0

/-- Witness for C7: a concrete incremental run; the watermark moves from
`2020-01-01T00:00:00` to the batch maximum `2024-03-04T05:06:07`. -/
theorem watermark_monotone_witness :
    ∃ w1, get_watermark
        (migrate_table
          ⟨.ok (), .ok ⟨["ID", "LastModified"], [[Value.intV 1, Value.dtV ⟨2024, 3, 4, 5, 6, 7⟩]]⟩,
            fun _ => .ok ⟨["ID", "LastModified"], [[Value.intV 1, Value.dtV ⟨2024, 3, 4, 5, 6, 7⟩]]⟩,
            fun _ => .ok "p", ⟨2024, 1, 1, 0, 0, 0⟩⟩
          (some ["t=2020-01-01T00:00:00"]) "t" true).file "t" = .ok w1 ∧
      Dtime.rank ⟨2020, 1, 1, 0, 0, 0⟩ ≤ w1.rank := by
  refine watermark_monotone
    ⟨.ok (), .ok ⟨["ID", "LastModified"], [[Value.intV 1, Value.dtV ⟨2024, 3, 4, 5, 6, 7⟩]]⟩,
      fun _ => .ok ⟨["ID", "LastModified"], [[Value.intV 1, Value.dtV ⟨2024, 3, 4, 5, 6, 7⟩]]⟩,
      fun _ => .ok "p", ⟨2024, 1, 1, 0, 0, 0⟩⟩
    (some ["t=2020-01-01T00:00:00"]) "t" true ⟨2020, 1, 1, 0, 0, 0⟩
    (by decide) (by decide) ?_ (by decide)
  intro df hdf
  injection hdf with hdf
  subst hdf
  decide

end Migration
